import Mathlib

/-!
# Verification of the event-line model of Obsidian-Big-Calendar

Shallow embedding of the calendar plugin's line-oriented event store:
the delete/restore ledger (`deleteEvent.ts` part), the event formatter and
edit-flow resolver (`changeEvent.ts` part), and the record-boundary logic of
`deleteEventFromDailyNote`.  JavaScript strings are modelled as Lean `String`
(operated on through their character lists), JS regexes as hand-rolled
character-list matchers reproducing the exact backtracking behaviour of the
patterns appearing in the source, and `moment` instants as a record of
calendar fields.
-/

namespace BigCal

/-! ## Character and list utilities mirroring JS string primitives -/

/-- JS `\s` / `trim` whitespace test (ASCII fragment, which is all the code uses). -/
def isWS (c : Char) : Bool := c.isWhitespace

/-- JS `[0-9]` digit test. -/
def isDig (c : Char) : Bool := c.isDigit

/-- JS `[a-zA-Z0-9]` test. -/
def isAlnum (c : Char) : Bool := c.isAlphanum

/-- Boolean list-prefix test (head-by-head), used to model JS `startsWith`
and as the primitive of substring search. -/
def leadsList : List Char → List Char → Bool
  | [], _ => true
  | _ :: _, [] => false
  | p :: ps, c :: cs => p = c && leadsList ps cs

/-- JS `String.prototype.startsWith`. -/
def leadsWith (s pre : String) : Bool := leadsList pre.data s.data

/-- First-occurrence split: `ffis pat l = some (a, b)` iff `l = a ++ pat ++ b`
with the occurrence of `pat` starting as early as possible. -/
def ffis (pat : List Char) : List Char → Option (List Char × List Char)
  | [] => if leadsList pat [] then some ([], []) else none
  | c :: cs =>
    if leadsList pat (c :: cs) then some ([], (c :: cs).drop pat.length)
    else (ffis pat cs).map (fun ab => (c :: ab.1, ab.2))

/-- JS `String.prototype.includes`. -/
def occursIn (s t : String) : Bool := (ffis t.data s.data).isSome

/-- JS `String.prototype.replace` with a string pattern and empty replacement:
removes the first occurrence of `pat` (or returns `s` unchanged if absent). -/
def replaceFirst (s pat : String) : String :=
  match ffis pat.data s.data with
  | some (a, b) => ⟨a ++ b⟩
  | none => s

/-- JS `String.prototype.endsWith`. -/
def trailsWith (s suf : String) : Bool := leadsList suf.data.reverse s.data.reverse

/-- Left-trim on character lists. -/
def trimLeftL (l : List Char) : List Char := l.dropWhile isWS

/-- JS `String.prototype.trim` (both ends). -/
def jsTrim (s : String) : String :=
  ⟨((s.data.dropWhile isWS).reverse.dropWhile isWS).reverse⟩

/-- JS `str.split('\n')` worker: accumulates the current line (reversed). -/
def splitNlAux : List Char → List Char → List String
  | [], acc => [⟨acc.reverse⟩]
  | c :: cs, acc =>
    if c = '\n' then ⟨acc.reverse⟩ :: splitNlAux cs [] else splitNlAux cs (c :: acc)

/-- JS `str.split('\n')`. -/
def splitNl (s : String) : List String := splitNlAux s.data []

/-- JS `lines.join('\n')`. -/
def joinNl : List String → String
  | [] => ""
  | [l] => l
  | l :: ls => l ++ "\n" ++ joinNl ls

/-- JS `s.slice(a, b)` for non-negative indices (code-point granularity;
the source only slices pure-ASCII identifier strings). -/
def jsSlice (s : String) (a b : Nat) : String := ⟨(s.data.take b).drop a⟩

/-- JS `s.slice(a)`. -/
def jsSliceFrom (s : String) (a : Nat) : String := ⟨s.data.drop a⟩

/-- Decimal value of a digit list (most significant first); assumes digits. -/
def digitsVal (l : List Char) : Nat :=
  l.foldl (fun n c => 10 * n + (c.toNat - 48)) 0

/-- JS `parseInt` on a string: parses the maximal leading digit run,
`none` when there is none (`NaN`). -/
def jsParseInt (s : String) : Option Nat :=
  match s.data.takeWhile isDig with
  | [] => none
  | ds => some (digitsVal ds)

/-- The maximal trailing digit run of a string. -/
def trailingDigits (s : String) : String :=
  ⟨(s.data.reverse.takeWhile isDig).reverse⟩

/-! ## The regex matchers used by the source

Each matcher takes the character list at the current position and returns
`some rest` (the input after the match) on success.  They reproduce the
backtracking behaviour of the concrete patterns in the source; the
alternatives of `\d{1,2}` before a `:` are mutually exclusive (the second
character cannot be both a digit and `:`), so no cross-alternative
backtracking arises. -/

/-- Exactly two digits (`\d{2}`). -/
def twoDig : List Char → Option (List Char)
  | a :: b :: rest => if isDig a && isDig b then some rest else none
  | _ => none

/-- `\d{1,2}:\d{2}` (greedy hour, then colon, then two-digit minute; the two
hour widths are mutually exclusive, so no backtracking across them exists). -/
def parseHM : List Char → Option (List Char)
  | a :: b :: rest =>
    if isDig a && isDig b then
      match rest with
      | c :: rest2 => if c = ':' then twoDig rest2 else none
      | [] => none
    else if isDig a && b = ':' then twoDig rest
    else none
  | _ => none

/-- `\s+` (one or more whitespace characters, greedy). -/
def wsPlus : List Char → Option (List Char)
  | c :: rest => if isWS c then some (rest.dropWhile isWS) else none
  | [] => none

/-- The optional `(-\d{1,2}:\d{2})?` group after an `hh:mm` match. -/
def dashHM : List Char → Option (List Char)
  | c :: rest => if c = '-' then parseHM rest else none
  | [] => none

/-- Anchored `^\d{1,2}:\d{2}(-\d{1,2}:\d{2})?\s+`: on success returns the
input after the match.  The optional `-hh:mm` group backtracks to empty when
the following `\s+` fails. -/
def matchLeadingTime (cs : List Char) : Option (List Char) :=
  match parseHM cs with
  | none => none
  | some r1 =>
    match dashHM r1 with
    | some r2 =>
      match wsPlus r2 with
      | some rest => some rest
      | none => wsPlus r1
    | none => wsPlus r1

/-- `\d{1,2}:\d{2}-\d{1,2}:\d{2}` at the current position. -/
def matchRange (cs : List Char) : Option (List Char) :=
  match parseHM cs with
  | some r1 => dashHM r1
  | none => none

/-- `⏲\s?\d{1,2}:\d{2}` at the current position. -/
def matchTimer : List Char → Option (List Char)
  | c :: rest =>
    if c = '⏲' then
      match rest with
      | w :: r => if isWS w then parseHM r else parseHM rest
      | [] => none
    else none
  | [] => none

/-- A `-\d{2}` tail. -/
def dashTwoDig : List Char → Option (List Char)
  | f :: r => if f = '-' then twoDig r else none
  | [] => none

/-- `\d{4}-\d{2}-\d{2}` at the current position. -/
def parseYMD (cs : List Char) : Option (List Char) :=
  match cs with
  | a :: b :: c :: d :: e :: rest =>
    if isDig a && isDig b && isDig c && isDig d && e = '-' then
      match twoDig rest with
      | some r1 => dashTwoDig r1
      | none => none
    else none
  | _ => none

/-- `📅\s?\d{4}-\d{2}-\d{2}` at the current position. -/
def matchDateEmoji : List Char → Option (List Char)
  | c :: rest =>
    if c = '📅' then
      match rest with
      | w :: r => if isWS w then parseYMD r else parseYMD rest
      | [] => none
    else none
  | [] => none

theorem twoDig_length {l r : List Char} (h : twoDig l = some r) :
    r.length + 2 ≤ l.length := by
  match l with
  | a :: b :: rest =>
    simp only [twoDig] at h
    split at h
    · cases h; simp
    · cases h
  | [] => cases h
  | [a] => cases h

theorem parseHM_length {l r : List Char} (h : parseHM l = some r) :
    r.length + 3 ≤ l.length := by
  match l with
  | a :: b :: rest =>
    simp only [parseHM] at h
    split at h
    · split at h
      · split at h
        · have := twoDig_length h
          simp only [List.length_cons] at *
          omega
        · cases h
      · cases h
    · split at h
      · have := twoDig_length h
        simp only [List.length_cons] at *
        omega
      · cases h
  | [] => cases h
  | [a] => cases h

theorem dashHM_length {l r : List Char} (h : dashHM l = some r) :
    r.length + 4 ≤ l.length := by
  match l with
  | c :: rest =>
    simp only [dashHM] at h
    split at h
    · have := parseHM_length h
      simp only [List.length_cons] at *
      omega
    · cases h
  | [] => cases h

theorem matchRange_length {l r : List Char} (h : matchRange l = some r) :
    r.length < l.length := by
  unfold matchRange at h
  cases h1 : parseHM l with
  | none => rw [h1] at h; cases h
  | some r1 =>
    rw [h1] at h
    have := parseHM_length h1
    have := dashHM_length h
    omega

theorem matchTimer_length {l r : List Char} (h : matchTimer l = some r) :
    r.length < l.length := by
  match l with
  | c :: rest =>
    simp only [matchTimer] at h
    split at h
    · split at h
      · split at h
        · have := parseHM_length h
          simp only [List.length_cons] at *
          omega
        · have := parseHM_length h
          simp only [List.length_cons] at *
          omega
      · cases h
    · cases h
  | [] => cases h

theorem dashTwoDig_length {l r : List Char} (h : dashTwoDig l = some r) :
    r.length + 3 ≤ l.length := by
  match l with
  | f :: rest =>
    simp only [dashTwoDig] at h
    split at h
    · have := twoDig_length h
      simp only [List.length_cons] at *
      omega
    · cases h
  | [] => cases h

theorem parseYMD_length {l r : List Char} (h : parseYMD l = some r) :
    r.length < l.length := by
  match l with
  | a :: b :: c :: d :: e :: rest =>
    simp only [parseYMD] at h
    split at h
    · cases h2 : twoDig rest with
      | none => rw [h2] at h; cases h
      | some r1 =>
        rw [h2] at h
        have hl2 := twoDig_length h2
        have := dashTwoDig_length h
        simp only [List.length_cons] at *
        omega
    · cases h
  | [] => cases h
  | [a] => cases h
  | [a, b] => cases h
  | [a, b, c] => cases h
  | [a, b, c, d] => cases h

theorem matchDateEmoji_length {l r : List Char} (h : matchDateEmoji l = some r) :
    r.length < l.length := by
  match l with
  | c :: rest =>
    simp only [matchDateEmoji] at h
    split at h
    · split at h
      · split at h
        · have := parseYMD_length h
          simp only [List.length_cons] at *
          omega
        · have := parseYMD_length h
          simp only [List.length_cons] at *
          omega
      · cases h
    · cases h
  | [] => cases h

/-- Global removal (`.replace(re, '')` with the `g` flag): scan left to
right, removing each non-overlapping match of `m` and continuing after it.
Fuel-driven structural recursion; since every matcher used here consumes at
least one character on success, fuel equal to the input length always
suffices (callers pass exactly that). -/
def remAll (m : List Char → Option (List Char)) : Nat → List Char → List Char
  | 0, l => l
  | _ + 1, [] => []
  | fuel + 1, c :: cs =>
    match m (c :: cs) with
    | some rest => remAll m fuel rest
    | none => c :: remAll m fuel cs

/-! ## The strip steps of `cleanEvent`

Source (`changeEvent.ts`):
```
cleanContent = cleanContent.replace(/^\d{1,2}:\d{2}(-\d{1,2}:\d{2})?\s+/, '').trim();
cleanContent = cleanContent.replace(/⏲\s?\d{1,2}:\d{2}/g, '').trim();
cleanContent = cleanContent.replace(/📅\s?\d{4}-\d{2}-\d{2}/g, '').trim();
cleanContent = cleanContent.replace(/\d{1,2}:\d{2}-\d{1,2}:\d{2}/g, '').trim();
```
-/

/-- Step 1 removal: anchored leading time token. -/
def remLeadingTime (s : String) : String :=
  match matchLeadingTime s.data with
  | some rest => ⟨rest⟩
  | none => s

/-- Step 2 removal: all timer-emoji end times. -/
def remTimer (s : String) : String := ⟨remAll matchTimer s.data.length s.data⟩

/-- Step 3 removal: all calendar-emoji dates. -/
def remDateEmoji (s : String) : String :=
  ⟨remAll matchDateEmoji s.data.length s.data⟩

/-- Step 4 removal: all bare time-range tokens. -/
def remRange (s : String) : String := ⟨remAll matchRange s.data.length s.data⟩

/-- The four replace-and-trim steps of `cleanEvent`, as a single function on
one string (the "strip" of the spec's idempotence property). -/
def stripTokens (s : String) : String :=
  jsTrim (remRange (jsTrim (remDateEmoji (jsTrim (remTimer (jsTrim (remLeadingTime s)))))))

/-- `cleanEvent(originalContent, content)` from the source: strips `content`;
if the result is empty and `originalContent` is truthy (non-empty), falls
back to stripping `originalContent`. -/
def cleanEvent (originalContent content : String) : String :=
  let c := stripTokens content
  if c = "" && originalContent ≠ "" then stripTokens originalContent else c

/-! ## Trailing annotation (block id) extraction

Source: `cleanContent.match(/\s(\^[a-zA-Z0-9]{2,})$/)`; `match[0]` is the
whitespace plus the caret token, `match[1]` the caret token.  The pattern is
anchored at the end and everything after the caret must be alphanumeric, so
the only candidate is the last `^` of the string. -/

/-- Returns `some (match0, blockId)` when the string ends in
whitespace + `^` + two-or-more alphanumerics. -/
def trailingAnnotationSplit (s : String) : Option (String × String) :=
  let r := s.data.reverse
  let al := r.takeWhile isAlnum
  match r.drop al.length with
  | '^' :: w :: _ =>
    if 2 ≤ al.length && isWS w then
      some (⟨w :: '^' :: al.reverse⟩, ⟨'^' :: al.reverse⟩)
    else none
  | _ => none

/-! ## Moments

`moment` instants are modelled by their calendar fields.  The source only
uses `format('HH')`, `format('mm')`, `format('HH:mm')`, `format('YYYY-MM-DD')`,
`format('YYYYMMDDHHmmss')`, `format('YYYY/MM/DD HH:mm:ss')` and
`isSame(other, 'day')`/`isSame(other, 'minute')`. -/

structure DateTime where
  year : Nat
  month : Nat
  day : Nat
  hour : Nat
  minute : Nat
  second : Nat
  deriving DecidableEq, Repr

/-- Two-digit zero-padded rendering (`moment` `HH`, `mm`, `DD`, ...). -/
def d2 (n : Nat) : List Char := [Nat.digitChar (n / 10 % 10), Nat.digitChar (n % 10)]

/-- Four-digit zero-padded rendering (`moment` `YYYY`). -/
def d4 (n : Nat) : List Char :=
  [Nat.digitChar (n / 1000 % 10), Nat.digitChar (n / 100 % 10),
   Nat.digitChar (n / 10 % 10), Nat.digitChar (n % 10)]

/-- `moment.format('HH')`. -/
def fmtHH (t : DateTime) : String := ⟨d2 t.hour⟩

/-- `moment.format('mm')`. -/
def fmtMM (t : DateTime) : String := ⟨d2 t.minute⟩

/-- `moment.format('HH:mm')`. -/
def fmtHM (t : DateTime) : String := ⟨d2 t.hour ++ ':' :: d2 t.minute⟩

/-- `moment.format('YYYY-MM-DD')`. -/
def fmtDate (t : DateTime) : String :=
  ⟨d4 t.year ++ '-' :: d2 t.month ++ '-' :: d2 t.day⟩

/-- `moment.format('YYYYMMDDHHmmss')`. -/
def fmtTS (t : DateTime) : String :=
  ⟨d4 t.year ++ d2 t.month ++ d2 t.day ++ d2 t.hour ++ d2 t.minute ++ d2 t.second⟩

/-- `moment(s, 'YYYYMMDDHHmmss')`: parses the first fourteen characters. -/
def parseTS (s : String) : DateTime :=
  let l := s.data
  { year := digitsVal (l.take 4)
    month := digitsVal ((l.drop 4).take 2)
    day := digitsVal ((l.drop 6).take 2)
    hour := digitsVal ((l.drop 8).take 2)
    minute := digitsVal ((l.drop 10).take 2)
    second := digitsVal ((l.drop 12).take 2) }

/-- `a.isSame(b, 'day')`. -/
def dtSameDay (a b : DateTime) : Bool :=
  a.year = b.year && a.month = b.month && a.day = b.day

/-! ## Collaborator helpers whose source is not part of the excerpt -/

/-- Modelled from the spec: `getAllLinesFromFile` — a document is "an ordered
sequence of text lines"; the reader splits the file contents on newlines
(JS `split('\n')`). -/
def getAllLinesFromFile (fileContents : String) : List String := splitNl fileContents

/-- Modelled from the spec: `getMarkBasedOnEvent` — the "closed lookup"
from record type to task-state marker (`default → no marker`, each task
state → a single reserved character). -/
def getMarkBasedOnEvent (eventType : String) : Option String :=
  if eventType = "TASK-TODO" then some " "
  else if eventType = "TASK-DONE" then some "x"
  else if eventType = "TASK-IN_PROGRESS" then some "/"
  else if eventType = "TASK-IMPORTANT" then some "!"
  else none

/-- JS template interpolation of a possibly-`null` value (`${x}` renders
`null` as the string `"null"`). -/
def jsStr (o : Option String) : String := o.getD "null"

/-- Worker for `extractEventTime`: scan for the first time token. -/
def extractEventTimeAux : List Char → Option (Nat × Nat)
  | [] => none
  | a :: rest =>
    match parseHM (a :: rest) with
    | some _ =>
      -- decode the digits that `parseHM` just accepted
      let hd := (a :: rest).takeWhile isDig
      let after := (a :: rest).dropWhile isDig
      some (digitsVal hd, digitsVal ((after.drop 1).take 2))
    | none => extractEventTimeAux rest

/-- Modelled from the spec: `extractEventTime` — extracts "the hour:minute
encoded" in a record line: the first `\d{1,2}:\d{2}` token, as numbers. -/
def extractEventTime (line : String) : Option (Nat × Nat) :=
  extractEventTimeAux line.data

/-- Modelled from the spec: `createTimeRegex().test(line)` — whether the line
carries a time-of-day token. -/
def hasTimeToken (line : String) : Bool := (extractEventTime line).isSome

/-! ## `formatEventLine` and `formatAllDayEvent` (changeEvent.ts) -/

/-- Indent every notes line with one tab and re-join, as in
``notes.trim().split('\n').map(line => `\t${line}`).join('\n')``. -/
def indentNotes (notes : String) : String :=
  joinNl ((splitNl (jsTrim notes)).map (fun l => "\t" ++ l))

/-- `formatEventLine(cleanContent, startMoment, endMoment, eventType, notes?)`
translated line for line from the source. -/
def formatEventLine (cleanContent : String) (startMoment endMoment : DateTime)
    (eventType : String) (notes : Option String) : String :=
  let timeHour := fmtHH startMoment
  let timeMinute := fmtMM startMoment
  let mark := getMarkBasedOnEvent eventType
  let blockIdMatch := trailingAnnotationSplit cleanContent
  let blockId := match blockIdMatch with | some p => p.2 | none => ""
  let processedContent :=
    match blockIdMatch with
    | some p => replaceFirst cleanContent p.1
    | none => cleanContent
  let sameDay := dtSameDay startMoment endMoment
  let newLine :=
    if sameDay then
      match mark with
      | some m =>
        "- [" ++ m ++ "] " ++ timeHour ++ ":" ++ timeMinute ++ "-" ++
          fmtHM endMoment ++ " " ++ processedContent
      | none =>
        "- " ++ timeHour ++ ":" ++ timeMinute ++ "-" ++
          fmtHM endMoment ++ " " ++ processedContent
    else
      match mark with
      | some m =>
        "- [" ++ m ++ "] " ++ processedContent ++ " 🛫 " ++
          fmtDate startMoment ++ " 📅 " ++ fmtDate endMoment
      | none =>
        "- " ++ processedContent ++ " 🛫 " ++
          fmtDate startMoment ++ " 📅 " ++ fmtDate endMoment
  let withNotes :=
    match notes with
    | some n => if jsTrim n ≠ "" then newLine ++ "\n" ++ indentNotes n else newLine
    | none => newLine
  if blockId ≠ "" then withNotes ++ " " ++ blockId else withNotes

/-- `formatAllDayEvent(cleanContent, originalStartDate, eventStartMoment,
eventEndMoment, eventType)` translated from the source. -/
def formatAllDayEvent (cleanContent : String)
    (originalStartDate eventStartMoment eventEndMoment : DateTime)
    (eventType : String) : String :=
  let blockIdMatch := trailingAnnotationSplit cleanContent
  let blockId := match blockIdMatch with | some p => p.2 | none => ""
  let mark := getMarkBasedOnEvent eventType
  let processedContent :=
    match blockIdMatch with
    | some p => replaceFirst cleanContent p.1
    | none => cleanContent
  let newLine :=
    match mark with
    | none => "- " ++ processedContent
    | some m => "- [" ++ m ++ "] " ++ processedContent
  let startDateChanged := !dtSameDay originalStartDate eventStartMoment
  let sameDay := dtSameDay eventStartMoment eventEndMoment
  let withStart :=
    if !sameDay || startDateChanged then
      newLine ++ " 🛫 " ++ fmtDate eventStartMoment
    else newLine
  let withEnd := withStart ++ " 📅 " ++ fmtDate eventEndMoment
  if blockId ≠ "" then withEnd ++ " " ++ blockId else withEnd

/-! ## The resolver and boundary scan of `deleteEventFromDailyNote` -/

/-- Record-start test used throughout the source: `line.match(/^- /)`. -/
def isRecStart (l : String) : Bool := leadsWith l "- "

/-- After the first `#`: more hashes then a space. -/
def moreHash : List Char → Bool
  | '#' :: rest => moreHash rest
  | ' ' :: _ => true
  | _ => false

/-- Worker for `isHeading`: at least one `#`, then a space. -/
def isHeadingAux : List Char → Bool
  | '#' :: rest => moreHash rest
  | _ => false

/-- Section-heading test: `line.match(/^#{1,} /)`. -/
def isHeading (l : String) : Bool := isHeadingAux l.data

/-- The source's `for`-loop "first index `≥ i` whose line satisfies `p`",
carrying the running index. -/
def firstIdxAux (p : String → Bool) : List String → Nat → Option Nat
  | [], _ => none
  | l :: ls, i => if p l then some i else firstIdxAux p ls (i + 1)

/-- The source's ordinal loop: count record-start lines, returning the index
of the one whose running count equals `k`. -/
def ordinalAux (k : Nat) : List String → Nat → Nat → Option Nat
  | [], _, _ => none
  | l :: ls, cnt, i =>
    if isRecStart l then
      if cnt = k then some i else ordinalAux k ls (cnt + 1) (i + 1)
    else ordinalAux k ls cnt (i + 1)

/-- The `HH:MM` literal built from the identifier in strategy 2:
`eventId.slice(8, 12)` split into hour and minute. -/
def timePatternOf (eventId : String) : String :=
  let timeStr := jsSlice eventId 8 12
  jsSlice timeStr 0 2 ++ ":" ++ jsSlice timeStr 2 4

/-- The three-strategy lookup of `deleteEventFromDailyNote` (title match,
then `HH:MM` match, then ordinal fallback), exactly as the source chains
them on `targetLineIndex === -1`.  The title hint is `none` when the JS
`eventTitle` is falsy (absent or the empty string is guarded by `if
(eventTitle)`). -/
def resolveEventLine (fileLines : List String) (eventId : String)
    (eventTitle : Option String) : Option Nat :=
  let byTitle :=
    match eventTitle with
    | some t =>
      if t ≠ "" then
        firstIdxAux (fun l => isRecStart l && occursIn l t) fileLines 0
      else none
    | none => none
  match byTitle with
  | some i => some i
  | none =>
    match firstIdxAux (fun l => isRecStart l && occursIn l (timePatternOf eventId))
        fileLines 0 with
    | some i => some i
    | none =>
      match jsParseInt (jsSliceFrom eventId 14) with
      | some k => ordinalAux k fileLines 0 0
      | none => none

/-- The boundary scan of `deleteEventFromDailyNote`: from
`targetLineIndex + 1`, stop at the next record-start or heading line
(`endIndex = stop - 1`), else extend to the last line. -/
def findEventBoundaries (fileLines : List String) (targetLineIndex : Nat) : Nat × Nat :=
  match firstIdxAux (fun l => isRecStart l || isHeading l)
      (fileLines.drop (targetLineIndex + 1)) (targetLineIndex + 1) with
  | some j => (targetLineIndex, j - 1)
  | none => (targetLineIndex, fileLines.length - 1)

/-- `/^\d{14,}$/` identifier well-formedness check. -/
def validEventId (id : String) : Bool :=
  decide (14 ≤ id.data.length) && id.data.all isDig

/-- `deleteEventFromDailyNote(eventId, eventPath, eventTitle?)`, as a pure
function from the file contents to either an error or the rewritten
contents (the file write happens exactly when the result is `ok`). -/
def deleteEventFromDailyNote (fileContents : String) (eventId : String)
    (eventTitle : Option String) : Except String String :=
  if !validEventId eventId then .error "Invalid event ID format"
  else
    let fileLines := getAllLinesFromFile fileContents
    match resolveEventLine fileLines eventId eventTitle with
    | none => .error "Could not find target event line"
    | some ti =>
      let targetLine := fileLines.getD ti ""
      if !isRecStart targetLine then .error "Target line is not an event line"
      else
        let se := findEventBoundaries fileLines ti
        .ok (joinNl (fileLines.take se.1 ++ fileLines.drop (se.2 + 1)))

/-- The document state after running `deleteEventFromDailyNote`: the new
contents on success, the unchanged contents on error (no write occurs). -/
def runDeleteEvent (fileContents : String) (eventId : String)
    (eventTitle : Option String) : String :=
  match deleteEventFromDailyNote fileContents eventId eventTitle with
  | .ok s => s
  | .error _ => fileContents

/-! ## `findEventLine` (changeEvent.ts), the edit-flow resolver -/

/-- `eventid.match(/_L(\d+)$/)`: a `_L<digits>` suffix, decoded. -/
def lSuffix (id : String) : Option Nat :=
  let r := id.data.reverse
  let ds := r.takeWhile isDig
  if ds.isEmpty then none
  else
    match r.drop ds.length with
    | 'L' :: '_' :: _ => some (digitsVal ds.reverse)
    | _ => none

/-- The generic task-box pattern (regex "dash, space, `[`, one non-`]`
character, `]`") at the head of the list. -/
def boxAt : List Char → Bool
  | '-' :: ' ' :: '[' :: c :: ']' :: _ => c ≠ ']'
  | _ => false

/-- Worker for `hasTaskBox`. -/
def hasTaskBoxAux : List Char → Bool
  | [] => false
  | c :: cs => boxAt (c :: cs) || hasTaskBoxAux cs

/-- The generic task-box pattern anywhere in the line. -/
def hasTaskBox (l : String) : Bool := hasTaskBoxAux l.data

/-- `originalStartDate.clone().set({hour, minute})`. -/
def dtSetHM (d : DateTime) (h m : Nat) : DateTime := {d with hour := h, minute := m}

/-- `moment.format('YYYYMMDDHHmm')`. -/
def fmtYMDHM (t : DateTime) : String :=
  ⟨d4 t.year ++ d2 t.month ++ d2 t.day ++ d2 t.hour ++ d2 t.minute⟩

/-- The predicate of `findEventLine`'s exact-match pass (its first `for`
loop), line for line from the source: the line must contain the original
content and start with `- `, and then satisfy the marker check, the
time-info check, or (only when the line has no time info) the literal
all-day shapes. -/
def findEventLineExactPred (eventid originalContent : String)
    (originalStartDate : DateTime) (eventType : String) (l : String) : Bool :=
  let mark := getMarkBasedOnEvent eventType
  occursIn l originalContent && isRecStart l &&
    (if leadsWith eventType "TASK-" &&
        (occursIn l ("- [" ++ jsStr mark ++ "]") || hasTaskBox l) then true
     else
       match extractEventTime l with
       | some hm =>
         decide (fmtYMDHM (dtSetHM originalStartDate hm.1 hm.2) = jsSlice eventid 0 12)
       | none =>
         decide (jsTrim l = "- " ++ jsTrim originalContent) ||
         occursIn l ("- " ++ jsTrim originalContent ++ " 📅") ||
         occursIn l ("- " ++ jsTrim originalContent ++ " 🛫") ||
         (leadsWith eventType "TASK-" &&
           occursIn l ("- [" ++ jsStr mark ++ "] " ++ jsTrim originalContent)))

/-- The predicate of `findEventLine`'s final date/time-regex pass. -/
def findEventLineTimePred (eventid : String) (originalStartDate : DateTime)
    (l : String) : Bool :=
  isRecStart l && hasTimeToken l &&
    (match extractEventTime l with
     | some hm =>
       decide (fmtYMDHM (dtSetHM originalStartDate hm.1 hm.2) = jsSlice eventid 0 12)
     | none => false)

/-- `findEventLine(fileLines, eventid, originalContent, originalStartDate,
eventType)` from the source: the `_L` line-number shortcut, then the
exact-match pass, then the fuzzy substring pass, then the time-regex pass. -/
def findEventLine (fileLines : List String) (eventid originalContent : String)
    (originalStartDate : DateTime) (eventType : String) : Option Nat :=
  let phase0 :=
    match lSuffix eventid with
    | some n =>
      if decide (n < fileLines.length) &&
          occursIn (fileLines.getD n "") originalContent then some n
      else none
    | none => none
  match phase0 with
  | some n => some n
  | none =>
    match firstIdxAux
        (findEventLineExactPred eventid originalContent originalStartDate eventType)
        fileLines 0 with
    | some i => some i
    | none =>
      match firstIdxAux (fun l => occursIn l originalContent) fileLines 0 with
      | some i => some i
      | none =>
        firstIdxAux (findEventLineTimePred eventid originalStartDate) fileLines 0

/-! ## The soft-delete ledger (deleteEvent.ts) -/

/-- `createDeleteEventInFile(file, fileContent, event, deleteDate)`: the new
ledger contents (the caller passes the ledger id as `deleteDate`). -/
def createDeleteEventInFile (fileContent event deleteDate : String) : String :=
  if fileContent = "" then event ++ " deletedAt: " ++ deleteDate
  else fileContent ++ "\n" ++ event ++ " deletedAt: " ++ deleteDate

/-- Decimal digits of a natural number, fuel-driven (the fuel `n + 1`
always suffices since the argument shrinks by a factor of ten). -/
def natStrAux : Nat → Nat → List Char
  | 0, _ => []
  | fuel + 1, n =>
    if n < 10 then [Nat.digitChar n]
    else natStrAux fuel (n / 10) ++ [Nat.digitChar (n % 10)]

/-- JS number-to-string coercion (`'' + lineNum`) for naturals. -/
def natStr (n : Nat) : String := ⟨natStrAux (n + 1) n⟩

/-- `sendEventToDelete(event)` as a pure function of the current ledger
contents (an absent `delete.md` reads as `""`, which the source's else
branch creates with `lineNum = 1` — the same result this formula gives) and
the current instant; returns the new ledger contents and the
`deleteDateID` that addresses the appended entry. -/
def sendEventToDelete (ledgerContents event : String) (now : DateTime) :
    String × String :=
  let fileLines := getAllLinesFromFile ledgerContents
  let lineNum :=
    if fileLines.length = 1 && fileLines.getD 0 "x" = "" then 1
    else fileLines.length + 1
  let deleteDateID := fmtTS now ++ natStr lineNum
  (createDeleteEventInFile ledgerContents event deleteDateID, deleteDateID)

/-- Worker for `hasDigitRun14`. -/
def hasDigitRun14Aux : List Char → Bool
  | [] => false
  | c :: cs =>
    (decide (14 ≤ (c :: cs).length) && ((c :: cs).take 14).all isDig) ||
      hasDigitRun14Aux cs

/-- `/\d{14,}/.test(id)`: somewhere a run of fourteen or more digits. -/
def hasDigitRun14 (s : String) : Bool := hasDigitRun14Aux s.data

/-- `/^- (.+)$/.test(line)` (lines carry no newline, so `.` is any char). -/
def isRecLine (line : String) : Bool :=
  leadsWith line "- " && decide (2 < line.data.length)

/-- Modelled from the spec: `extractDeletedEventId` — a deleted-record
entry is "addressed by `<creation-timestamp><line-number-at-deletion-time>`",
written after the `deletedAt:` marker; the id is the digit run that
terminates the ledger line. -/
def extractDeletedEventId (line : String) : String := trailingDigits line

/-- Modelled from the spec: `extractDeletedEvent` — the
`<original-record-line>` portion of a ledger entry of shape
`<original-record-line> deletedAt: <timestamp>`: the text between the
leading `- ` and the last ` deletedAt: ` marker (a greedy `/^- (.+) deletedAt: /`
capture), `none` when the line does not have that shape. -/
def extractDeletedEvent (line : String) : Option String :=
  match ffis (" deletedAt: ".data.reverse) line.data.reverse with
  | some ab =>
    let pre := ab.2.reverse
    if leadsList "- ".data pre && decide (2 < pre.length) then some ⟨pre.drop 2⟩
    else none
  | none => none

/-- Outcome of `restoreDeletedEvent`: the rewritten ledger contents and the
reconstructed record line (`none` when nothing is restored). -/
structure RestoreResult where
  newLedger : String
  restoredLine : Option String
  deriving DecidableEq, Repr

/-- `restoreDeletedEvent(deletedEventid)` as a pure function of the ledger
contents.  The ledger is rewritten (`replace(line, '')`) before the
record-line check; only in-range line numbers are exercised by the claims
(a JS out-of-range access yields `undefined` and is outside this model). -/
def restoreDeletedEvent (ledgerContents deletedEventid : String) :
    Except String RestoreResult :=
  if !hasDigitRun14 deletedEventid then .error "Invalid event ID format"
  else
    let fileLines := getAllLinesFromFile ledgerContents
    let lineNum := (jsParseInt (jsSliceFrom deletedEventid 14)).getD 0
    let line := fileLines.getD (lineNum - 1) ""
    let newLedger := replaceFirst ledgerContents line
    if !isRecLine line then .ok ⟨newLedger, none⟩
    else
      let id := extractDeletedEventId line
      let date := parseTS id
      let newEvent :=
        "- " ++ fmtHH date ++ ":" ++ fmtMM date ++ " " ++ jsStr (extractDeletedEvent line)
      .ok ⟨newLedger, some newEvent⟩

/-! ## Claim-side characterizations

These definitions follow the wording of the specification ("the first
record-start line such that ...", "the record-start line whose 0-based
count equals the ordinal", "the index of the line immediately before the
next record-start or section-heading"), to be proved equal to the source
loops above. -/

/-- The index of the first element satisfying `p` (0-based, structural). -/
def specFirstIdx (p : String → Bool) : List String → Option Nat
  | [] => none
  | l :: ls => if p l then some 0 else (specFirstIdx p ls).map (· + 1)

/-- The indices of all record-start lines, in order. -/
def recIdxs : List String → List Nat
  | [] => []
  | l :: ls =>
    if isRecStart l then 0 :: (recIdxs ls).map (· + 1)
    else (recIdxs ls).map (· + 1)

/-- Title strategy, as the claim states it: the first record-start line
whose text contains the title hint as a case-sensitive substring (a present,
non-empty hint). -/
def titleStrategySpec (fileLines : List String) (eventTitle : Option String) :
    Option Nat :=
  match eventTitle with
  | some t =>
    if t ≠ "" then specFirstIdx (fun l => isRecStart l && occursIn l t) fileLines
    else none
  | none => none

/-- Time strategy, as the claim states it: the first record-start line
containing the literal `HH:MM` string built from the identifier. -/
def timeStrategySpec (fileLines : List String) (eventId : String) : Option Nat :=
  specFirstIdx (fun l => isRecStart l && occursIn l (timePatternOf eventId)) fileLines

/-- Ordinal strategy, as the claim states it: the record-start line whose
0-based count among record-start lines equals the ordinal decoded from the
identifier's suffix past position 14. -/
def ordinalStrategySpec (fileLines : List String) (eventId : String) : Option Nat :=
  match jsParseInt (jsSliceFrom eventId 14) with
  | some k => (recIdxs fileLines).get? k
  | none => none

/-- The three strategies in the claim's order, first success wins. -/
def resolveSpec (fileLines : List String) (eventId : String)
    (eventTitle : Option String) : Option Nat :=
  match titleStrategySpec fileLines eventTitle with
  | some i => some i
  | none =>
    match timeStrategySpec fileLines eventId with
    | some i => some i
    | none => ordinalStrategySpec fileLines eventId

/-- The record span as the claim describes it: start at `startIndex`; end
immediately before the next record-start or section-heading line scanning
from `startIndex + 1`, or at the document's last line if there is none. -/
def boundariesSpec (fileLines : List String) (startIndex : Nat) : Nat × Nat :=
  match specFirstIdx (fun l => isRecStart l || isHeading l)
      (fileLines.drop (startIndex + 1)) with
  | some k => (startIndex, startIndex + k)
  | none => (startIndex, fileLines.length - 1)

/-! ## Loop/characterization equivalences -/

theorem firstIdxAux_eq_spec (p : String → Bool) :
    ∀ (ls : List String) (i : Nat),
      firstIdxAux p ls i = (specFirstIdx p ls).map (· + i) := by
  intro ls
  induction ls with
  | nil => intro i; rfl
  | cons l ls ih =>
    intro i
    simp only [firstIdxAux, specFirstIdx]
    by_cases hp : p l
    · simp [hp]
    · simp only [hp, if_neg, Bool.false_eq_true, ite_false]
      rw [ih (i + 1)]
      cases specFirstIdx p ls with
      | none => rfl
      | some j => simp [Option.map]; omega

theorem specFirstIdx_lt {p : String → Bool} :
    ∀ {ls : List String} {i : Nat}, specFirstIdx p ls = some i → i < ls.length := by
  intro ls
  induction ls with
  | nil => intro i h; cases h
  | cons l ls ih =>
    intro i h
    simp only [specFirstIdx] at h
    by_cases hp : p l
    · rw [if_pos hp] at h; cases h; simp
    · rw [if_neg hp] at h
      cases hs : specFirstIdx p ls with
      | none => rw [hs] at h; cases h
      | some j =>
        rw [hs] at h
        cases h
        have := ih hs
        simp
        omega

theorem specFirstIdx_pred {p : String → Bool} :
    ∀ {ls : List String} {i : Nat}, specFirstIdx p ls = some i →
      p (ls.getD i "") = true := by
  intro ls
  induction ls with
  | nil => intro i h; cases h
  | cons l ls ih =>
    intro i h
    simp only [specFirstIdx] at h
    by_cases hp : p l
    · rw [if_pos hp] at h; cases h; simpa using hp
    · rw [if_neg hp] at h
      cases hs : specFirstIdx p ls with
      | none => rw [hs] at h; cases h
      | some j =>
        rw [hs] at h
        cases h
        simpa using ih hs

theorem ordinalAux_eq (k : Nat) :
    ∀ (ls : List String) (cnt i : Nat), cnt ≤ k →
      ordinalAux k ls cnt i = ((recIdxs ls).get? (k - cnt)).map (· + i) := by
  intro ls
  induction ls with
  | nil => intro cnt i _; simp [ordinalAux, recIdxs]
  | cons l ls ih =>
    intro cnt i hcnt
    simp only [ordinalAux, recIdxs]
    by_cases hr : isRecStart l
    · simp only [hr, if_true]
      by_cases he : cnt = k
      · subst he
        simp [Nat.sub_self]
      · have hlt : cnt < k := Nat.lt_of_le_of_ne hcnt he
        rw [if_neg he, ih (cnt + 1) (i + 1) hlt]
        have hks : k - cnt = (k - (cnt + 1)) + 1 := by omega
        rw [hks]
        simp only [List.get?_cons_succ, List.get?_map]
        cases (recIdxs ls).get? (k - (cnt + 1)) with
        | none => rfl
        | some j => simp [Option.map]; omega
    · simp only [hr, Bool.false_eq_true, if_false]
      rw [ih cnt (i + 1) hcnt]
      simp only [List.get?_map]
      cases (recIdxs ls).get? (k - cnt) with
      | none => rfl
      | some j => simp [Option.map]; omega

theorem optMap_add_zero (o : Option Nat) : o.map (· + 0) = o := by
  cases o <;> rfl

theorem firstIdxAux_zero (p : String → Bool) (ls : List String) :
    firstIdxAux p ls 0 = specFirstIdx p ls := by
  rw [firstIdxAux_eq_spec]
  exact optMap_add_zero _

theorem ordinalAux_zero (k : Nat) (ls : List String) :
    ordinalAux k ls 0 0 = (recIdxs ls).get? k := by
  rw [ordinalAux_eq k ls 0 0 (Nat.zero_le k)]
  rw [Nat.sub_zero]
  exact optMap_add_zero _

/-! ## String and line-splitting lemmas -/

/-- Newline-freedom of a string (every source "line" satisfies it). -/
def noNl (s : String) : Bool := s.data.all (fun ch => ch ≠ '\n')

theorem leadsList_append_self (l r : List Char) : leadsList l (l ++ r) = true := by
  induction l with
  | nil => rfl
  | cons c cs ih => simp [leadsList, ih]

theorem leadsList_eq {p l : List Char} (h : leadsList p l = true) :
    l = p ++ l.drop p.length := by
  induction p generalizing l with
  | nil => simp
  | cons c cs ih =>
    cases l with
    | nil => cases h
    | cons d ds =>
      simp only [leadsList, Bool.and_eq_true, decide_eq_true_eq] at h
      obtain ⟨rfl, h2⟩ := h
      simpa using ih h2

theorem trailsWith_append (x y : String) : trailsWith (x ++ y) y = true := by
  unfold trailsWith
  rw [String.data_append, List.reverse_append]
  exact leadsList_append_self _ _

theorem ffis_eq {pat l a b : List Char} (h : ffis pat l = some (a, b)) :
    l = a ++ pat ++ b := by
  induction l generalizing a b with
  | nil =>
    simp only [ffis] at h
    by_cases hp : leadsList pat [] = true
    · rw [if_pos hp] at h
      cases h
      cases pat with
      | nil => rfl
      | cons c cs => cases hp
    · rw [if_neg hp] at h
      cases h
  | cons c cs ih =>
    simp only [ffis] at h
    by_cases hp : leadsList pat (c :: cs) = true
    · rw [if_pos hp] at h
      cases h
      simpa using leadsList_eq hp
    · rw [if_neg hp] at h
      cases hf : ffis pat cs with
      | none => rw [hf] at h; cases h
      | some ab =>
        rw [hf] at h
        cases h
        have := ih hf
        simp [this]

theorem leadsList_self (l : List Char) : leadsList l l = true := by
  simpa using leadsList_append_self l []

theorem replaceFirst_self (s : String) : replaceFirst s s = "" := by
  unfold replaceFirst
  have h1 : ffis s.data s.data = some ([], []) := by
    cases hd : s.data with
    | nil => simp [ffis, leadsList]
    | cons c cs => simp [ffis, leadsList_self]
  rw [h1]
  rfl

theorem splitNlAux_ne_nil (l acc : List Char) : splitNlAux l acc ≠ [] := by
  induction l generalizing acc with
  | nil => simp [splitNlAux]
  | cons c cs ih =>
    simp only [splitNlAux]
    by_cases hc : c = '\n'
    · simp [hc]
    · simpa [hc] using ih (c :: acc)

theorem splitNlAux_noNl (l acc : List Char) (h : l.all (fun ch => ch ≠ '\n') = true) :
    splitNlAux l acc = [⟨acc.reverse ++ l⟩] := by
  induction l generalizing acc with
  | nil => simp [splitNlAux]
  | cons c cs ih =>
    simp only [List.all_cons, Bool.and_eq_true, decide_eq_true_eq] at h
    simp only [splitNlAux, if_neg h.1]
    rw [ih (c :: acc) h.2]
    simp

theorem splitNlAux_append (a b acc : List Char) :
    splitNlAux (a ++ '\n' :: b) acc = splitNlAux a acc ++ splitNlAux b [] := by
  induction a generalizing acc with
  | nil => simp [splitNlAux]
  | cons c cs ih =>
    simp only [List.cons_append, splitNlAux]
    by_cases hc : c = '\n'
    · simp [hc, ih]
    · simp [hc, ih (c :: acc)]

theorem splitNl_noNl {s : String} (h : noNl s = true) : splitNl s = [s] := by
  unfold splitNl
  rw [splitNlAux_noNl _ _ h]
  simp

theorem splitNl_append_line (a entry : String) (h : noNl entry = true) :
    splitNl (a ++ "\n" ++ entry) = splitNl a ++ [entry] := by
  unfold splitNl
  have hd : (a ++ "\n" ++ entry).data = a.data ++ '\n' :: entry.data := by
    simp [String.data_append]
  rw [hd, splitNlAux_append, splitNlAux_noNl _ _ h]
  simp [splitNl]

theorem splitNlAux_head (l acc : List Char) :
    ∃ rest, splitNlAux l acc
      = (⟨acc.reverse ++ l.takeWhile (fun c => !(c = '\n'))⟩ : String) :: rest := by
  induction l generalizing acc with
  | nil => exact ⟨[], by simp [splitNlAux]⟩
  | cons c cs ih =>
    by_cases hc : c = '\n'
    · subst hc
      refine ⟨splitNlAux cs [], ?_⟩
      simp [splitNlAux, List.takeWhile]
    · obtain ⟨rest, hrest⟩ := ih (c :: acc)
      refine ⟨rest, ?_⟩
      simp only [splitNlAux, if_neg hc]
      rw [hrest]
      simp [List.takeWhile, hc]

theorem splitNl_eq_single_empty {s : String} (h : splitNl s = [""]) : s = "" := by
  cases hs : s.data with
  | nil => exact String.ext (by rw [hs])
  | cons c cs =>
    exfalso
    unfold splitNl at h
    rw [hs] at h
    by_cases hc : c = '\n'
    · subst hc
      simp only [splitNlAux, if_pos rfl] at h
      have h2 : splitNlAux cs [] = [] := by
        cases hr : splitNlAux cs [] with
        | nil => rfl
        | cons x xs => simp [hr] at h
      exact splitNlAux_ne_nil cs [] h2
    · simp only [splitNlAux, if_neg hc] at h
      obtain ⟨rest, hrest⟩ := splitNlAux_head cs [c]
      rw [hrest] at h
      have : ("" : String) = ⟨[c].reverse ++ cs.takeWhile (fun c => !(c = '\n'))⟩ ∧
          ([] : List String) = rest := by
        constructor
        · exact (List.cons_eq_cons.mp h.symm).1
        · exact (List.cons_eq_cons.mp h.symm).2
      have hdata := congrArg String.data this.1
      simp at hdata

theorem strAppend_assoc (a b c : String) : a ++ b ++ c = a ++ (b ++ c) :=
  String.ext (by simp [String.data_append])

theorem trailsWith_append2 (x y z : String) : trailsWith (x ++ y ++ z) (y ++ z) = true := by
  rw [strAppend_assoc]
  exact trailsWith_append _ _

theorem digitChar_ne_nl {n : Nat} (h : n < 10) : Nat.digitChar n ≠ '\n' := by
  interval_cases n <;> decide

theorem digitChar_mod10_ne_nl (n : Nat) : Nat.digitChar (n % 10) ≠ '\n' :=
  digitChar_ne_nl (Nat.mod_lt _ (by norm_num))

theorem digitChar_isDig {n : Nat} (h : n < 10) : isDig (Nat.digitChar n) = true := by
  interval_cases n <;> decide

theorem digitChar_mod10_isDig (n : Nat) : isDig (Nat.digitChar (n % 10)) = true :=
  digitChar_isDig (Nat.mod_lt _ (by norm_num))

theorem digitChar_val {n : Nat} (h : n < 10) : (Nat.digitChar n).toNat - 48 = n := by
  interval_cases n <;> decide

theorem takeWhile_all (p : Char → Bool) (l : List Char) :
    (l.takeWhile p).all p = true := by
  induction l with
  | nil => rfl
  | cons c cs ih =>
    by_cases hp : p c
    · simp [List.takeWhile, hp, ih]
    · simp [List.takeWhile, hp]

theorem trailingAnnotationSplit_props {c m0 anno : String}
    (h : trailingAnnotationSplit c = some (m0, anno)) :
    anno ≠ "" ∧ noNl anno = true := by
  simp only [trailingAnnotationSplit] at h
  split at h
  · split at h
    · cases h
      constructor
      · intro hne
        have := congrArg String.data hne
        simp at this
      · simp only [noNl, List.all_cons, Bool.and_eq_true]
        constructor
        · decide
        · have h1 : ((c.data.reverse.takeWhile isAlnum).reverse).all isAlnum = true := by
            simp only [List.all_reverse]
            exact takeWhile_all _ _
          simp only [List.all_eq_true] at h1 ⊢
          intro x hx
          have h2 := h1 x hx
          simp only [decide_eq_true_eq]
          intro hxe
          subst hxe
          exact absurd h2 (by decide)
    · cases h
  · cases h

theorem noNl_append (a b : String) : noNl (a ++ b) = (noNl a && noNl b) := by
  simp [noNl, String.data_append, List.all_append]

theorem noNl_d2 (n : Nat) : noNl (⟨d2 n⟩ : String) = true := by
  simp [noNl, d2, digitChar_mod10_ne_nl]

theorem noNl_d4 (n : Nat) : noNl (⟨d4 n⟩ : String) = true := by
  simp [noNl, d4, digitChar_mod10_ne_nl]

theorem noNl_fmtHH (t : DateTime) : noNl (fmtHH t) = true := noNl_d2 _

theorem noNl_fmtMM (t : DateTime) : noNl (fmtMM t) = true := noNl_d2 _

theorem noNl_fmtHM (t : DateTime) : noNl (fmtHM t) = true := by
  simp [noNl, fmtHM, d2, digitChar_mod10_ne_nl, show (':' : Char) ≠ '\n' by decide]

theorem noNl_fmtDate (t : DateTime) : noNl (fmtDate t) = true := by
  simp [noNl, fmtDate, d4, d2, List.all_append, digitChar_mod10_ne_nl,
    show ('-' : Char) ≠ '\n' by decide]

theorem getMark_noNl {t m : String} (h : getMarkBasedOnEvent t = some m) :
    noNl m = true := by
  unfold getMarkBasedOnEvent at h
  split_ifs at h <;> (cases h; decide)

theorem noNl_replaceFirst {c : String} (pat : String) (h : noNl c = true) :
    noNl (replaceFirst c pat) = true := by
  unfold replaceFirst
  cases hf : ffis pat.data c.data with
  | none => exact h
  | some ab =>
    have hdec : c.data = ab.1 ++ pat.data ++ ab.2 := ffis_eq (by rw [hf])
    simp only [noNl] at h
    rw [hdec] at h
    simp only [List.all_append, Bool.and_eq_true] at h
    have hgoal : (ab.1 ++ ab.2).all (fun ch => decide (ch ≠ '\n')) = true := by
      simp only [List.all_append, Bool.and_eq_true]
      exact ⟨h.1.1, h.2⟩
    exact hgoal

theorem noNl_formatEventLine_noNotes (c : String) (s e : DateTime) (t : String)
    (hc : noNl c = true) : noNl (formatEventLine c s e t none) = true := by
  have hlit : noNl "- " = true ∧ noNl "- [" = true ∧ noNl "] " = true ∧
      noNl ":" = true ∧ noNl "-" = true ∧ noNl " " = true ∧
      noNl " 🛫 " = true ∧ noNl " 📅 " = true := by decide
  cases hsp : trailingAnnotationSplit c with
  | none =>
    simp only [formatEventLine, hsp]
    simp only [ne_eq, not_true, if_false]
    cases hsd : dtSameDay s e <;> cases hm : getMarkBasedOnEvent t <;>
      simp [noNl_append, noNl_fmtHH, noNl_fmtMM, noNl_fmtHM, noNl_fmtDate, hc,
        hlit.1, hlit.2.1, hlit.2.2.1, hlit.2.2.2.1, hlit.2.2.2.2.1,
        hlit.2.2.2.2.2.1, hlit.2.2.2.2.2.2.1, hlit.2.2.2.2.2.2.2] <;>
      exact getMark_noNl hm
  | some p =>
    have hanno := @trailingAnnotationSplit_props c p.1 p.2 (by rw [hsp])
    have hproc := noNl_replaceFirst (c := c) p.1 hc
    simp only [formatEventLine, hsp]
    simp only [ne_eq, hanno.1, not_false_iff, if_true]
    cases hsd : dtSameDay s e <;> cases hm : getMarkBasedOnEvent t <;>
      simp [noNl_append, noNl_fmtHH, noNl_fmtMM, noNl_fmtHM, noNl_fmtDate, hproc,
        hanno.2,
        hlit.1, hlit.2.1, hlit.2.2.1, hlit.2.2.2.1, hlit.2.2.2.2.1,
        hlit.2.2.2.2.2.1, hlit.2.2.2.2.2.2.1, hlit.2.2.2.2.2.2.2] <;>
      exact getMark_noNl hm

theorem noNl_formatAllDayEvent (c : String) (d0 s e : DateTime) (t : String)
    (hc : noNl c = true) : noNl (formatAllDayEvent c d0 s e t) = true := by
  have hlit : noNl "- " = true ∧ noNl "- [" = true ∧ noNl "] " = true ∧
      noNl " " = true ∧ noNl " 🛫 " = true ∧ noNl " 📅 " = true := by decide
  cases hsp : trailingAnnotationSplit c with
  | none =>
    simp only [formatAllDayEvent, hsp]
    simp only [ne_eq, not_true, if_false]
    cases hm : getMarkBasedOnEvent t <;>
      cases hfl : (!dtSameDay s e || !dtSameDay d0 s) <;>
      simp [noNl_append, noNl_fmtDate, hc, hlit.1, hlit.2.1, hlit.2.2.1,
        hlit.2.2.2.1, hlit.2.2.2.2.1, hlit.2.2.2.2.2] <;>
      exact getMark_noNl hm
  | some p =>
    have hanno := @trailingAnnotationSplit_props c p.1 p.2 (by rw [hsp])
    have hproc := noNl_replaceFirst (c := c) p.1 hc
    simp only [formatAllDayEvent, hsp]
    simp only [ne_eq, hanno.1, not_false_iff, if_true]
    cases hm : getMarkBasedOnEvent t <;>
      cases hfl : (!dtSameDay s e || !dtSameDay d0 s) <;>
      simp [noNl_append, noNl_fmtDate, hproc, hanno.2, hlit.1, hlit.2.1,
        hlit.2.2.1, hlit.2.2.2.1, hlit.2.2.2.2.1, hlit.2.2.2.2.2] <;>
      exact getMark_noNl hm

/-! ## Claim theorems -/

/-- C1: for every document and identifier with optional title hint,
`deleteEventFromDailyNote`'s line resolution equals the ordered composition
of the three claim-level strategies (title substring on record-start lines,
then the `HH:MM` literal from the identifier, then the ordinal decoded from
the suffix past position 14), first success winning; in particular whenever
the title strategy selects a line, that line is the result (so it beats the
ordinal strategy whenever they disagree). -/
theorem resolveEventLine_strategy_order (fileLines : List String)
    (eventId : String) (eventTitle : Option String) :
    resolveEventLine fileLines eventId eventTitle
        = resolveSpec fileLines eventId eventTitle
      ∧ ∀ i, titleStrategySpec fileLines eventTitle = some i →
        resolveEventLine fileLines eventId eventTitle = some i := by
  have key : resolveEventLine fileLines eventId eventTitle
      = resolveSpec fileLines eventId eventTitle := by
    simp only [resolveEventLine, resolveSpec, titleStrategySpec, timeStrategySpec,
      ordinalStrategySpec, firstIdxAux_zero, ordinalAux_zero]
  refine ⟨key, ?_⟩
  intro i h
  rw [key]
  unfold resolveSpec
  rw [h]

/-- Witness for C1 at a concrete document where the title strategy and the
ordinal strategy disagree (ordinal 0 would give line 0; the title hint
selects line 1, and line 1 is returned). -/
theorem resolveEventLine_strategy_order_witness :
    titleStrategySpec ["- x apple", "- y banana"] (some "banana") = some 1
      ∧ resolveEventLine ["- x apple", "- y banana"] "202509011200000"
          (some "banana") = some 1 :=
  ⟨by decide,
   (resolveEventLine_strategy_order ["- x apple", "- y banana"] "202509011200000"
      (some "banana")).2 1 (by decide)⟩

/-- C2: for every document and record-start index, the span computed by the
boundary scan of `deleteEventFromDailyNote` starts at the index and ends
immediately before the next record-start or section-heading line (blank and
tab-indented lines being continuation content), or at the last line when no
such stop exists; concretely the two spans of the claim's example document. -/
theorem findEventBoundaries_spec_eq :
    (∀ (fileLines : List String) (startIndex : Nat),
        startIndex < fileLines.length →
        isRecStart (fileLines.getD startIndex "") = true →
        findEventBoundaries fileLines startIndex = boundariesSpec fileLines startIndex)
      ∧ findEventBoundaries ["# H", "- a", "\tx", "- b"] 1 = (1, 2)
      ∧ findEventBoundaries ["# H", "- a", "\tx", "- b"] 3 = (3, 3) := by
  refine ⟨?_, by decide, by decide⟩
  intro fileLines startIndex _ _
  unfold findEventBoundaries boundariesSpec
  rw [firstIdxAux_eq_spec]
  cases h : specFirstIdx (fun l => isRecStart l || isHeading l)
      (fileLines.drop (startIndex + 1)) with
  | none => rfl
  | some k =>
    simp only [Option.map]
    have : k + (startIndex + 1) - 1 = startIndex + k := by omega
    rw [this]

/-- Witness for C2: the general span equation applied to the claim's
example document at index 1. -/
theorem findEventBoundaries_spec_eq_witness :
    (1 : Nat) < (["# H", "- a", "\tx", "- b"] : List String).length
      ∧ isRecStart ((["# H", "- a", "\tx", "- b"] : List String).getD 1 "") = true
      ∧ findEventBoundaries ["# H", "- a", "\tx", "- b"] 1
          = boundariesSpec ["# H", "- a", "\tx", "- b"] 1 :=
  ⟨by decide, by decide,
   findEventBoundaries_spec_eq.1 ["# H", "- a", "\tx", "- b"] 1 (by decide) (by decide)⟩

/-- C3: whenever every strategy of the resolver fails on a well-formed
identifier, `deleteEventFromDailyNote` terminates with the distinguishable
"Could not find target event line" error and the document contents are not
modified (no write occurs). -/
theorem deleteEventFromDailyNote_not_found (fileContents eventId : String)
    (eventTitle : Option String) (hid : validEventId eventId = true)
    (hres : resolveEventLine (getAllLinesFromFile fileContents) eventId eventTitle
      = none) :
    deleteEventFromDailyNote fileContents eventId eventTitle
        = .error "Could not find target event line"
      ∧ runDeleteEvent fileContents eventId eventTitle = fileContents := by
  have herr : deleteEventFromDailyNote fileContents eventId eventTitle
      = .error "Could not find target event line" := by
    simp only [deleteEventFromDailyNote, hid, Bool.not_true, Bool.false_eq_true,
      if_false, hres]
  exact ⟨herr, by unfold runDeleteEvent; rw [herr]⟩

/-- Witness for C3: a document with no record line at all, a valid
identifier whose ordinal suffix is empty (`parseInt('')` is `NaN`). -/
theorem deleteEventFromDailyNote_not_found_witness :
    validEventId "20250901120000" = true
      ∧ resolveEventLine (getAllLinesFromFile "hello\nworld") "20250901120000" none
          = none
      ∧ deleteEventFromDailyNote "hello\nworld" "20250901120000" none
          = .error "Could not find target event line"
      ∧ runDeleteEvent "hello\nworld" "20250901120000" none = "hello\nworld" := by
  refine ⟨by decide, by decide, ?_⟩
  have h := deleteEventFromDailyNote_not_found "hello\nworld" "20250901120000" none
    (by decide) (by decide)
  exact h

/-- The record-line head the claim describes: `- ` with the bracketed marker
inserted for task types. -/
def markedHead (eventType : String) : String :=
  match getMarkBasedOnEvent eventType with
  | some m => "- [" ++ m ++ "] "
  | none => "- "

theorem formatEventLine_sameDay_eq (c : String) (s e : DateTime) (t : String)
    (hann : trailingAnnotationSplit c = none) (hsd : dtSameDay s e = true) :
    formatEventLine c s e t none
      = markedHead t ++ fmtHM s ++ "-" ++ fmtHM e ++ " " ++ c := by
  simp only [formatEventLine, hann, markedHead, hsd, if_true]
  cases hm : getMarkBasedOnEvent t with
  | none =>
    apply String.ext
    simp [fmtHM, fmtHH, fmtMM, String.data_append, List.append_assoc]
  | some m =>
    apply String.ext
    simp [fmtHM, fmtHH, fmtMM, String.data_append, List.append_assoc]

theorem formatEventLine_multiDay_eq (c : String) (s e : DateTime) (t : String)
    (hann : trailingAnnotationSplit c = none) (hsd : dtSameDay s e = false) :
    formatEventLine c s e t none
      = markedHead t ++ c ++ " 🛫 " ++ fmtDate s ++ " 📅 " ++ fmtDate e := by
  simp only [formatEventLine, hann, markedHead, hsd, Bool.false_eq_true, if_false]
  cases hm : getMarkBasedOnEvent t with
  | none =>
    apply String.ext
    simp [String.data_append, List.append_assoc]
  | some m =>
    apply String.ext
    simp [String.data_append, List.append_assoc]

/-- C4 (counterexample): the claim's multi-day shape
`- <content> 🛫 YYYY-MM-DD 📅 YYYY-MM-DD` fails for a content ending in a
trailing annotation token, because `formatEventLine` re-attaches the
annotation after the dates rather than leaving it inside the content. -/
theorem formatEventLine_claimed_shape_fails :
    formatEventLine "Trip ^ab" ⟨2025, 9, 1, 0, 0, 0⟩ ⟨2025, 9, 3, 0, 0, 0⟩
        "default" none
      ≠ markedHead "default" ++ "Trip ^ab" ++ " 🛫 " ++ fmtDate ⟨2025, 9, 1, 0, 0, 0⟩
          ++ " 📅 " ++ fmtDate ⟨2025, 9, 3, 0, 0, 0⟩ := by
  decide

/-- C4 (amended): for every cleaned content with no trailing annotation
token, same-day moments render `- [mark] HH:MM-HH:MM <content>` and
different-day moments render `- [mark] <content> 🛫 YYYY-MM-DD 📅 YYYY-MM-DD`
(the bracketed marker appearing exactly for task types); in particular the
two concrete examples of the claim. -/
theorem formatEventLine_shapes (c : String) (s e : DateTime) (t : String)
    (hann : trailingAnnotationSplit c = none) :
    (dtSameDay s e = true →
        formatEventLine c s e t none
          = markedHead t ++ fmtHM s ++ "-" ++ fmtHM e ++ " " ++ c)
      ∧ (dtSameDay s e = false →
        formatEventLine c s e t none
          = markedHead t ++ c ++ " 🛫 " ++ fmtDate s ++ " 📅 " ++ fmtDate e)
      ∧ formatEventLine "Lunch" ⟨2025, 9, 1, 12, 0, 0⟩ ⟨2025, 9, 1, 13, 0, 0⟩
          "default" none = "- 12:00-13:00 Lunch"
      ∧ formatEventLine "Trip" ⟨2025, 9, 1, 0, 0, 0⟩ ⟨2025, 9, 3, 0, 0, 0⟩
          "default" none = "- Trip 🛫 2025-09-01 📅 2025-09-03" := by
  exact ⟨formatEventLine_sameDay_eq c s e t hann,
    formatEventLine_multiDay_eq c s e t hann, by decide, by decide⟩

/-- C6 (counterexample): with a non-empty notes block, the annotation is
appended after the notes block, not to the rendered record line — the record
line (first output line) does not contain the annotation at all. -/
theorem annotation_not_on_record_line_with_notes :
    splitNl (formatEventLine "Lunch ^ab" ⟨2025, 9, 1, 12, 0, 0⟩ ⟨2025, 9, 1, 13, 0, 0⟩
        "default" (some "note"))
      = ["- 12:00-13:00 Lunch", "\tnote ^ab"]
      ∧ occursIn "- 12:00-13:00 Lunch" "^ab" = false := by
  constructor
  · decide
  · decide

/-- C6 (amended): the trailing annotation is detached and re-attached
verbatim as the final token of the rendered output by both formatters; with
no notes the output is a single line (so the annotation ends the record line
itself), while a non-empty notes block is inserted before the annotation,
which then ends the last continuation line instead of the record line. -/
theorem annotation_survives_reformat (c m0 anno : String) (s e d0 : DateTime)
    (t : String) (notes : Option String)
    (hsplit : trailingAnnotationSplit c = some (m0, anno)) (hc : noNl c = true) :
    trailsWith (formatEventLine c s e t notes) (" " ++ anno) = true
      ∧ (splitNl (formatEventLine c s e t none)).length = 1
      ∧ trailsWith (formatAllDayEvent c d0 s e t) (" " ++ anno) = true
      ∧ (splitNl (formatAllDayEvent c d0 s e t)).length = 1 := by
  have hanno := trailingAnnotationSplit_props hsplit
  refine ⟨?_, ?_, ?_, ?_⟩
  · simp only [formatEventLine, hsplit]
    simp only [ne_eq, hanno.1, not_false_iff, if_true]
    exact trailsWith_append2 _ _ _
  · rw [splitNl_noNl (noNl_formatEventLine_noNotes c s e t hc)]
    rfl
  · simp only [formatAllDayEvent, hsplit]
    simp only [ne_eq, hanno.1, not_false_iff, if_true]
    exact trailsWith_append2 _ _ _
  · rw [splitNl_noNl (noNl_formatAllDayEvent c d0 s e t hc)]
    rfl

/-- Witness for C6 (amended) at a concrete annotated content. -/
theorem annotation_survives_reformat_witness :
    trailingAnnotationSplit "Lunch ^ab" = some (" ^ab", "^ab")
      ∧ noNl "Lunch ^ab" = true
      ∧ trailsWith
          (formatEventLine "Lunch ^ab" ⟨2025, 9, 1, 12, 0, 0⟩ ⟨2025, 9, 1, 13, 0, 0⟩
            "default" (some "note")) (" " ++ "^ab") = true
      ∧ (splitNl (formatEventLine "Lunch ^ab" ⟨2025, 9, 1, 12, 0, 0⟩
          ⟨2025, 9, 1, 13, 0, 0⟩ "default" none)).length = 1 := by
  have h := annotation_survives_reformat "Lunch ^ab" " ^ab" "^ab"
    ⟨2025, 9, 1, 12, 0, 0⟩ ⟨2025, 9, 1, 13, 0, 0⟩ ⟨2025, 9, 1, 12, 0, 0⟩
    "default" (some "note") (by decide) (by decide)
  exact ⟨by decide, by decide, h.1, h.2.1⟩

/-- C7 (counterexample): `findEventLine`'s fuzzy fallback returns a
tab-indented continuation line that merely contains the original content. -/
theorem findEventLine_returns_continuation_line :
    findEventLine ["\tfoo"] "20250901120000" "foo" ⟨2025, 9, 1, 12, 0, 0⟩ "default"
        = some 0
      ∧ isRecStart "\tfoo" = false := by
  constructor
  · decide
  · decide

/-- C7 (amended): when the identifier carries no `_L` line-number suffix and
the exact-match pass succeeds, `findEventLine` returns that pass's index and
the selected line is a record-start line; the final time-regex pass likewise
only selects record-start lines.  (The fuzzy substring fallback, by
contrast, can return a continuation line, as the counterexample shows.) -/
theorem findEventLine_exact_pass_recordStart (fileLines : List String)
    (eventid originalContent : String) (d : DateTime) (t : String) (i : Nat)
    (hL : lSuffix eventid = none)
    (hex : firstIdxAux (findEventLineExactPred eventid originalContent d t)
      fileLines 0 = some i) :
    findEventLine fileLines eventid originalContent d t = some i
      ∧ isRecStart (fileLines.getD i "") = true
      ∧ ∀ j, firstIdxAux (findEventLineTimePred eventid d) fileLines 0 = some j →
          isRecStart (fileLines.getD j "") = true := by
  refine ⟨?_, ?_, ?_⟩
  · simp only [findEventLine, hL]
    rw [hex]
  · rw [firstIdxAux_zero] at hex
    have hp := specFirstIdx_pred hex
    simp only [findEventLineExactPred, Bool.and_eq_true] at hp
    exact hp.1.2
  · intro j hj
    rw [firstIdxAux_zero] at hj
    have hp := specFirstIdx_pred hj
    simp only [findEventLineTimePred, Bool.and_eq_true] at hp
    exact hp.1.1

/-- Witness for C7 (amended): a record line found by the exact pass. -/
theorem findEventLine_exact_pass_recordStart_witness :
    lSuffix "202509011200001" = none
      ∧ firstIdxAux
          (findEventLineExactPred "202509011200001" "foo" ⟨2025, 9, 1, 0, 0, 0⟩
            "default") ["- 12:00 foo"] 0 = some 0
      ∧ findEventLine ["- 12:00 foo"] "202509011200001" "foo" ⟨2025, 9, 1, 0, 0, 0⟩
          "default" = some 0
      ∧ isRecStart ((["- 12:00 foo"] : List String).getD 0 "") = true := by
  have h := findEventLine_exact_pass_recordStart ["- 12:00 foo"] "202509011200001"
    "foo" ⟨2025, 9, 1, 0, 0, 0⟩ "default" 0 (by decide) (by decide)
  exact ⟨by decide, by decide, h.1, h.2.1⟩

theorem natStrAux_all_dig (fuel : Nat) : ∀ n, (natStrAux fuel n).all isDig = true := by
  induction fuel with
  | zero => intro n; rfl
  | succ fuel ih =>
    intro n
    simp only [natStrAux]
    by_cases h : n < 10
    · simp [h, digitChar_isDig h]
    · simp [h, List.all_append, ih (n / 10), digitChar_mod10_isDig]

theorem all_dig_noNl {l : List Char} (h : l.all isDig = true) :
    l.all (fun ch => decide (ch ≠ '\n')) = true := by
  simp only [List.all_eq_true] at h ⊢
  intro x hx
  have h2 := h x hx
  simp only [decide_eq_true_eq]
  intro hxe
  subst hxe
  exact absurd h2 (by decide)

theorem noNl_natStr (n : Nat) : noNl (natStr n) = true :=
  all_dig_noNl (natStrAux_all_dig (n + 1) n)

theorem noNl_fmtTS (t : DateTime) : noNl (fmtTS t) = true := by
  simp [noNl, fmtTS, d4, d2, List.all_append, digitChar_mod10_ne_nl]

theorem splitNl_cond_iff {contents : String} :
    ((splitNl contents).length = 1 ∧ (splitNl contents).getD 0 "x" = "") ↔
      contents = "" := by
  constructor
  · rintro ⟨h1, h2⟩
    obtain ⟨x, hx⟩ := List.length_eq_one.mp h1
    rw [hx] at h2
    simp at h2
    subst h2
    exact splitNl_eq_single_empty (by rw [hx])
  · rintro rfl
    exact ⟨rfl, rfl⟩

theorem noNl_entry (event id : String) (hev : noNl event = true)
    (hid : noNl id = true) : noNl (event ++ " deletedAt: " ++ id) = true := by
  simp [noNl_append, hev, hid, show noNl " deletedAt: " = true by decide]

/-- C8 (counterexample): the ledger line's `deletedAt:` field holds the full
ledger id (deletion timestamp immediately followed by the line number), not
the bare 14-digit timestamp of the claim's `<timestamp>` form. -/
theorem sendEventToDelete_stores_id_not_timestamp :
    (sendEventToDelete "" "- 10:30 Meeting" ⟨2025, 9, 2, 14, 22, 33⟩).1
        = "- 10:30 Meeting deletedAt: 202509021422331"
      ∧ (sendEventToDelete "" "- 10:30 Meeting" ⟨2025, 9, 2, 14, 22, 33⟩).1
        ≠ "- 10:30 Meeting" ++ " deletedAt: " ++ fmtTS ⟨2025, 9, 2, 14, 22, 33⟩ := by
  constructor
  · decide
  · decide

/-- C8 (amended): `sendEventToDelete` appends exactly one ledger line of the
form `<verbatim-record-line> deletedAt: <ledgerId>`, where the ledgerId is
the 14-digit `YYYYMMDDHHmmss` deletion timestamp concatenated (no
separator) with the 1-based line number the entry occupies at append time —
1 when the ledger is empty (or consists of one empty line, which is the
same contents), otherwise the previous line count plus one. -/
theorem sendEventToDelete_spec (contents event : String) (now : DateTime)
    (hev : noNl event = true) :
    (sendEventToDelete contents event now).2
        = fmtTS now ++ natStr (if contents = "" then 1 else (splitNl contents).length + 1)
      ∧ splitNl (sendEventToDelete contents event now).1
          = (if contents = "" then [] else splitNl contents)
            ++ [event ++ " deletedAt: " ++ (sendEventToDelete contents event now).2]
      ∧ (splitNl (sendEventToDelete contents event now).1).get?
            ((if contents = "" then 1 else (splitNl contents).length + 1) - 1)
          = some (event ++ " deletedAt: " ++ (sendEventToDelete contents event now).2) := by
  have hid : noNl (fmtTS now
      ++ natStr (if contents = "" then 1 else (splitNl contents).length + 1)) = true := by
    simp [noNl_append, noNl_fmtTS, noNl_natStr]
  by_cases hc : contents = ""
  · subst hc
    have h1 : (sendEventToDelete "" event now).2 = fmtTS now ++ natStr 1 := rfl
    refine ⟨by simp [h1], ?_, ?_⟩
    · have h2 : (sendEventToDelete "" event now).1
          = event ++ " deletedAt: " ++ (sendEventToDelete "" event now).2 := rfl
      rw [h2]
      rw [splitNl_noNl (noNl_entry _ _ hev (by rw [h1]; simpa using hid))]
      simp
    · have h2 : (sendEventToDelete "" event now).1
          = event ++ " deletedAt: " ++ (sendEventToDelete "" event now).2 := rfl
      rw [h2, splitNl_noNl (noNl_entry _ _ hev (by rw [h1]; simpa using hid))]
      simp
  · have hcond : ((getAllLinesFromFile contents).length = 1
        && (getAllLinesFromFile contents).getD 0 "x" = "") = false := by
      rw [Bool.and_eq_false_iff]
      by_cases hl : (splitNl contents).length = 1
      · right
        simp only [getAllLinesFromFile]
        rw [decide_eq_false_iff_not]
        intro h2
        exact hc (splitNl_cond_iff.mp ⟨hl, h2⟩)
      · left
        simp only [getAllLinesFromFile]
        rw [decide_eq_false_iff_not]
        exact hl
    have h1 : (sendEventToDelete contents event now).2
        = fmtTS now ++ natStr ((splitNl contents).length + 1) := by
      simp only [sendEventToDelete, getAllLinesFromFile] at *
      rw [hcond]
      simp
    have h2 : (sendEventToDelete contents event now).1
        = contents ++ "\n"
            ++ (event ++ " deletedAt: " ++ (sendEventToDelete contents event now).2) := by
      simp only [sendEventToDelete, createDeleteEventInFile, getAllLinesFromFile] at *
      rw [hcond]
      simp [hc, strAppend_assoc]
    have hident : noNl (event ++ " deletedAt: "
        ++ (sendEventToDelete contents event now).2) = true := by
      apply noNl_entry _ _ hev
      rw [h1]
      simp only [if_neg hc] at hid
      exact hid
    refine ⟨by rw [h1]; simp [hc], ?_, ?_⟩
    · rw [h2, splitNl_append_line _ _ hident]
      simp [hc]
    · rw [h2, splitNl_append_line _ _ hident]
      simp only [if_neg hc]
      have hsub : (splitNl contents).length + 1 - 1 = (splitNl contents).length := by
        omega
      rw [hsub]
      exact List.get?_concat_length _ _

/-- Witness for C8 (amended) on a one-line ledger: the entry is appended as
line 2 and the ledger id ends in `2`. -/
theorem sendEventToDelete_spec_witness :
    noNl "- e" = true
      ∧ (sendEventToDelete "x" "- e" ⟨2025, 9, 2, 14, 22, 33⟩).2
          = fmtTS ⟨2025, 9, 2, 14, 22, 33⟩
            ++ natStr (if "x" = "" then 1 else (splitNl "x").length + 1) :=
  ⟨by decide,
   (sendEventToDelete_spec "x" "- e" ⟨2025, 9, 2, 14, 22, 33⟩ (by decide)).1⟩

theorem takeWhile_of_all {p : Char → Bool} : ∀ {l : List Char}, l.all p = true →
    l.takeWhile p = l := by
  intro l
  induction l with
  | nil => intro _; rfl
  | cons c cs ih =>
    intro h
    simp only [List.all_cons, Bool.and_eq_true] at h
    simp [List.takeWhile, h.1, ih h.2]

theorem takeWhile_append_all {p : Char → Bool} {a : List Char} (b : List Char)
    (ha : a.all p = true) : (a ++ b).takeWhile p = a ++ b.takeWhile p := by
  induction a with
  | nil => rfl
  | cons c cs ih =>
    simp only [List.all_cons, Bool.and_eq_true] at ha
    simp [List.takeWhile, ha.1, ih ha.2]

theorem natStrAux_ne_nil (fuel n : Nat) : natStrAux (fuel + 1) n ≠ [] := by
  simp only [natStrAux]
  by_cases h : n < 10
  · simp [h]
  · simp [h]

theorem digitsVal_append_one (a : List Char) (c : Char) :
    digitsVal (a ++ [c]) = 10 * digitsVal a + (c.toNat - 48) := by
  simp [digitsVal, List.foldl_append]

theorem natStrAux_val : ∀ (fuel n : Nat), n < 10 ^ fuel →
    digitsVal (natStrAux fuel n) = n := by
  intro fuel
  induction fuel with
  | zero => intro n h; interval_cases n; rfl
  | succ fuel ih =>
    intro n h
    simp only [natStrAux]
    by_cases h10 : n < 10
    · simp [h10, digitsVal, digitChar_val h10]
    · have hdiv : n / 10 < 10 ^ fuel := by
        rw [Nat.div_lt_iff_lt_mul (by norm_num : 0 < 10)]
        rw [Nat.pow_succ] at h
        exact h
      rw [if_neg h10, digitsVal_append_one, ih (n / 10) hdiv]
      rw [digitChar_val (Nat.mod_lt _ (by norm_num))]
      omega

theorem natStr_val (n : Nat) : digitsVal (natStr n).data = n :=
  natStrAux_val (n + 1) n (Nat.lt_of_lt_of_le (Nat.lt_pow_self (by norm_num) n)
    (Nat.pow_le_pow_right (by norm_num) (Nat.le_succ n)))

theorem jsParseInt_natStr (n : Nat) : jsParseInt (natStr n) = some n := by
  unfold jsParseInt
  have hall : (natStr n).data.all isDig = true := natStrAux_all_dig (n + 1) n
  rw [takeWhile_of_all hall]
  cases h : (natStr n).data with
  | nil => exact absurd h (natStrAux_ne_nil n n)
  | cons c cs =>
    have hv := natStr_val n
    rw [h] at hv
    simp [hv]

theorem fmtTS_all_dig (t : DateTime) : (fmtTS t).data.all isDig = true := by
  simp [fmtTS, d4, d2, List.all_append, digitChar_mod10_isDig]

theorem fmtTS_length (t : DateTime) : (fmtTS t).data.length = 14 := by
  simp [fmtTS, d4, d2]

theorem hasDigitRun14_of_ts {ts : String} (suffix : String)
    (hlen : ts.data.length = 14) (hdig : ts.data.all isDig = true) :
    hasDigitRun14 (ts ++ suffix) = true := by
  have key : (decide (14 ≤ (ts.data ++ suffix.data).length)
      && ((ts.data ++ suffix.data).take 14).all isDig) = true := by
    simp only [Bool.and_eq_true, decide_eq_true_eq]
    constructor
    · simp [List.length_append, hlen]
    · rw [← hlen, List.take_left]
      exact hdig
  unfold hasDigitRun14
  rw [String.data_append]
  cases hd : ts.data with
  | nil => rw [hd] at hlen; cases hlen
  | cons c cs =>
    rw [hd] at key
    simp only [List.cons_append, hasDigitRun14Aux, Bool.or_eq_true]
    left
    simpa using key

theorem jsSliceFrom_append {ts : String} (suffix : String)
    (hlen : ts.data.length = 14) : jsSliceFrom (ts ++ suffix) 14 = suffix := by
  unfold jsSliceFrom
  rw [String.data_append, ← hlen, List.drop_left]

theorem ffis_all_dig_lead {c0 : Char} {cs0 a b : List Char}
    (hc : isDig c0 = false) (ha : a.all isDig = true)
    (hb : leadsList (c0 :: cs0) b = true) :
    ffis (c0 :: cs0) (a ++ b) = some (a, b.drop (c0 :: cs0).length) := by
  induction a with
  | nil =>
    cases b with
    | nil => cases hb
    | cons d ds =>
      simp only [List.nil_append, ffis, hb, if_pos]
  | cons d ds ih =>
    simp only [List.all_cons, Bool.and_eq_true] at ha
    have hne : leadsList (c0 :: cs0) (d :: (ds ++ b)) = false := by
      simp only [leadsList, Bool.and_eq_false_iff]
      left
      rw [decide_eq_false_iff_not]
      intro he
      rw [he] at hc
      rw [ha.1] at hc
      cases hc
    have hstep : (d :: ds) ++ b = d :: (ds ++ b) := rfl
    rw [hstep]
    simp only [ffis, hne, Bool.false_eq_true, if_false]
    rw [ih ha.2]
    rfl

theorem extractDeletedEvent_entry (body id : String)
    (hbody : body ≠ "") (hid : id.data.all isDig = true) :
    extractDeletedEvent ("- " ++ body ++ " deletedAt: " ++ id) = some body := by
  have hrev : ("- " ++ body ++ " deletedAt: " ++ id).data.reverse
      = id.data.reverse ++ (" deletedAt: ".data.reverse
          ++ (body.data.reverse ++ [' ', '-'])) := by
    simp [String.data_append, List.reverse_append]
  have hids : (id.data.reverse).all isDig = true := by
    simpa [List.all_reverse] using hid
  have hpat : (' ' :: (" deletedAt: ".data.reverse).tail)
      = " deletedAt: ".data.reverse := by decide
  have hf := @ffis_all_dig_lead ' ' ((" deletedAt: ".data.reverse).tail)
    (id.data.reverse)
    (" deletedAt: ".data.reverse ++ (body.data.reverse ++ [' ', '-']))
    (by decide) hids
    (by rw [hpat]; exact leadsList_append_self _ _)
  rw [hpat] at hf
  have hlen12 : (' ' :: (" deletedAt: ".data.reverse).tail).length = 12 := by decide
  rw [hpat] at hlen12
  rw [hlen12, List.drop_left' hlen12] at hf
  unfold extractDeletedEvent
  rw [hrev, hf]
  simp only []
  have hrev2 : (body.data.reverse ++ [' ', '-']).reverse = '-' :: ' ' :: body.data := by
    simp
  rw [hrev2]
  have hlead : leadsList "- ".data ('-' :: ' ' :: body.data) = true := by
    simp [leadsList]
  rw [hlead]
  have hcond : decide (2 < ('-' :: ' ' :: body.data).length) = true := by
    simp only [List.length_cons, decide_eq_true_eq]
    have hblen : 0 < body.data.length := by
      cases hb : body.data with
      | nil => exact absurd (String.ext hb) hbody
      | cons x xs => simp
    omega
  rw [hcond]
  simp

/-- C10: for a well-formed ledger id `<14-digit-ts><n>` addressing a line
that does not match the record pattern, `restoreDeletedEvent` still rewrites
the ledger with that line's text removed (first-occurrence string
replacement) and restores nothing — the ledger is mutated even though
nothing is restored. -/
theorem restoreDeletedEvent_mutates_on_nonrecord (ledger ts : String) (n : Nat)
    (hlen : ts.data.length = 14) (hdig : ts.data.all isDig = true)
    (hrec : isRecLine ((splitNl ledger).getD (n - 1) "") = false) :
    restoreDeletedEvent ledger (ts ++ natStr n)
      = .ok ⟨replaceFirst ledger ((splitNl ledger).getD (n - 1) ""), none⟩ := by
  unfold restoreDeletedEvent
  rw [hasDigitRun14_of_ts (natStr n) hlen hdig]
  simp only [Bool.not_true, Bool.false_eq_true, if_false]
  rw [jsSliceFrom_append (natStr n) hlen, jsParseInt_natStr]
  simp only [Option.getD_some, getAllLinesFromFile]
  rw [hrec]
  simp

/-- Witness for C10: a two-line ledger whose second line `foo` is not a
record line; the ledger is rewritten to `# hdr\n` and nothing is restored. -/
theorem restoreDeletedEvent_mutates_on_nonrecord_witness :
    ("20250902142233" : String).data.length = 14
      ∧ ("20250902142233" : String).data.all isDig = true
      ∧ isRecLine ((splitNl "# hdr\nfoo").getD (2 - 1) "") = false
      ∧ restoreDeletedEvent "# hdr\nfoo" ("20250902142233" ++ natStr 2)
          = .ok ⟨replaceFirst "# hdr\nfoo" ((splitNl "# hdr\nfoo").getD (2 - 1) ""),
              none⟩
      ∧ replaceFirst "# hdr\nfoo" ((splitNl "# hdr\nfoo").getD (2 - 1) "")
          = "# hdr\n" := by
  refine ⟨by decide, by decide, by decide, ?_, by decide⟩
  exact restoreDeletedEvent_mutates_on_nonrecord "# hdr\nfoo" "20250902142233" 2
    (by decide) (by decide) (by decide)

theorem d2_val {n : Nat} (h : n < 100) : digitsVal (d2 n) = n := by
  simp only [digitsVal, d2, List.foldl]
  rw [digitChar_val (Nat.mod_lt _ (by norm_num)),
    digitChar_val (Nat.mod_lt _ (by norm_num))]
  omega

theorem parseTS_hour (t : DateTime) (suffix : String) :
    (parseTS (fmtTS t ++ suffix)).hour = digitsVal (d2 t.hour) := rfl

theorem parseTS_minute (t : DateTime) (suffix : String) :
    (parseTS (fmtTS t ++ suffix)).minute = digitsVal (d2 t.minute) := rfl

theorem trailingDigits_entry (body id : String) (hid : id.data.all isDig = true) :
    trailingDigits ("- " ++ body ++ " deletedAt: " ++ id) = id := by
  unfold trailingDigits
  have hrev : ("- " ++ body ++ " deletedAt: " ++ id).data.reverse
      = id.data.reverse ++ (" deletedAt: ".data.reverse
          ++ (body.data.reverse ++ [' ', '-'])) := by
    simp [String.data_append, List.reverse_append]
  rw [hrev]
  rw [takeWhile_append_all _ (by simpa [List.all_reverse] using hid)]
  have hpat : (' ' :: (" deletedAt: ".data.reverse).tail)
      = " deletedAt: ".data.reverse := by decide
  have hsp : (" deletedAt: ".data.reverse
      ++ (body.data.reverse ++ [' ', '-'])).takeWhile isDig = [] := by
    rw [← hpat]
    simp [List.takeWhile, show isDig ' ' = false by decide]
  rw [hsp]
  simp

/-- C9 (counterexample): deleting the record line `- 10:30 Meeting` at
2025-09-02 14:22:33 and restoring its ledger entry yields
`- 14:22 10:30 Meeting`: the prepended `HH:MM` is the deletion instant's
time, not the record's `10:30`, so the restored line differs from the
original record line. -/
theorem restore_roundtrip_not_original_time :
    restoreDeletedEvent
        (sendEventToDelete "" "- 10:30 Meeting" ⟨2025, 9, 2, 14, 22, 33⟩).1
        (sendEventToDelete "" "- 10:30 Meeting" ⟨2025, 9, 2, 14, 22, 33⟩).2
      = .ok ⟨"", some "- 14:22 10:30 Meeting"⟩
    ∧ ("- 14:22 10:30 Meeting" : String) ≠ "- 10:30 Meeting" := by
  constructor
  · rfl
  · decide

/-- C9 (amended): the delete-then-restore round trip on an empty ledger
removes the ledger entry again and reconstructs the record line
`- HH:MM <original-body>`, where `HH:MM` is the hour and minute of the
deletion timestamp embedded in the ledgerId (not the record's own time) and
the original record line's body after `- ` survives verbatim — so the
original title survives inside the restored line's content. -/
theorem restoreDeletedEvent_roundtrip (body : String) (now : DateTime)
    (hbody : noNl body = true) (hne : body ≠ "")
    (hh : now.hour < 100) (hmin : now.minute < 100) :
    restoreDeletedEvent (sendEventToDelete "" ("- " ++ body) now).1
        (sendEventToDelete "" ("- " ++ body) now).2
      = .ok ⟨"", some ("- " ++ (⟨d2 now.hour⟩ : String) ++ ":"
          ++ (⟨d2 now.minute⟩ : String) ++ " " ++ body)⟩ := by
  have hid_dig : (fmtTS now ++ natStr 1).data.all isDig = true := by
    rw [String.data_append]
    simp only [List.all_append, Bool.and_eq_true]
    exact ⟨fmtTS_all_dig now, natStrAux_all_dig 2 1⟩
  have hentry : (sendEventToDelete "" ("- " ++ body) now).1
      = "- " ++ body ++ " deletedAt: " ++ (fmtTS now ++ natStr 1) := by
    have h1 : (sendEventToDelete "" ("- " ++ body) now).1
        = ("- " ++ body) ++ " deletedAt: " ++ (fmtTS now ++ natStr 1) := rfl
    rw [h1]
  have hid : (sendEventToDelete "" ("- " ++ body) now).2
      = fmtTS now ++ natStr 1 := rfl
  rw [hentry, hid]
  have hnoNl_entry : noNl ("- " ++ body ++ " deletedAt: " ++ (fmtTS now ++ natStr 1))
      = true := by
    simp [noNl_append, hbody, show noNl "- " = true by decide,
      show noNl " deletedAt: " = true by decide, noNl_fmtTS, noNl_natStr]
  unfold restoreDeletedEvent
  rw [hasDigitRun14_of_ts _ (fmtTS_length now) (fmtTS_all_dig now)]
  simp only [Bool.not_true, Bool.false_eq_true, if_false]
  rw [jsSliceFrom_append _ (fmtTS_length now), jsParseInt_natStr]
  simp only [Option.getD_some, getAllLinesFromFile]
  rw [splitNl_noNl hnoNl_entry]
  simp only [List.getD, List.get?, Option.getD_some]
  rw [replaceFirst_self]
  have hrecline : isRecLine ("- " ++ body ++ " deletedAt: " ++ (fmtTS now ++ natStr 1))
      = true := by
    unfold isRecLine leadsWith
    have hdata : ("- " ++ body ++ " deletedAt: " ++ (fmtTS now ++ natStr 1)).data
        = '-' :: ' ' :: (body.data ++ " deletedAt: ".data
            ++ (fmtTS now ++ natStr 1).data) := by
      simp [String.data_append]
    rw [hdata]
    simp [leadsList]
  rw [hrecline]
  simp only [Bool.not_true, Bool.false_eq_true, if_false]
  rw [show extractDeletedEventId ("- " ++ body ++ " deletedAt: "
        ++ (fmtTS now ++ natStr 1))
      = trailingDigits ("- " ++ body ++ " deletedAt: " ++ (fmtTS now ++ natStr 1))
    from rfl]
  rw [trailingDigits_entry _ _ hid_dig]
  rw [extractDeletedEvent_entry _ _ hne hid_dig]
  have hhour : (parseTS (fmtTS now ++ natStr 1)).hour = now.hour := by
    rw [parseTS_hour, d2_val hh]
  have hminute : (parseTS (fmtTS now ++ natStr 1)).minute = now.minute := by
    rw [parseTS_minute, d2_val hmin]
  simp only [jsStr, Option.getD_some, fmtHH, fmtMM, hhour, hminute]

/-- Witness for C9 (amended) at the counterexample's own record and
deletion instant. -/
theorem restoreDeletedEvent_roundtrip_witness :
    noNl "10:30 Meeting" = true
      ∧ ("10:30 Meeting" : String) ≠ ""
      ∧ restoreDeletedEvent
          (sendEventToDelete "" ("- " ++ "10:30 Meeting") ⟨2025, 9, 2, 14, 22, 33⟩).1
          (sendEventToDelete "" ("- " ++ "10:30 Meeting") ⟨2025, 9, 2, 14, 22, 33⟩).2
        = .ok ⟨"", some ("- " ++ (⟨d2 14⟩ : String) ++ ":" ++ (⟨d2 22⟩ : String)
            ++ " " ++ "10:30 Meeting")⟩ := by
  refine ⟨by decide, by decide, ?_⟩
  exact restoreDeletedEvent_roundtrip "10:30 Meeting" ⟨2025, 9, 2, 14, 22, 33⟩
    (by decide) (by decide) (by decide) (by decide)

theorem dropWhile_length_le (p : Char → Bool) :
    ∀ l : List Char, (l.dropWhile p).length ≤ l.length := by
  intro l
  induction l with
  | nil => exact Nat.le_refl 0
  | cons c cs ih =>
    by_cases hp : p c
    · rw [List.dropWhile_cons_of_pos hp]
      simp only [List.length_cons]
      omega
    · rw [List.dropWhile_cons_of_neg hp]

theorem wsPlus_length {l r : List Char} (h : wsPlus l = some r) :
    r.length < l.length := by
  match l with
  | c :: rest =>
    simp only [wsPlus] at h
    split at h
    · cases h
      have := dropWhile_length_le isWS rest
      simp only [List.length_cons]
      omega
    · cases h
  | [] => cases h

theorem matchLeadingTime_length {l r : List Char} (h : matchLeadingTime l = some r) :
    r.length < l.length := by
  unfold matchLeadingTime at h
  cases h1 : parseHM l with
  | none => rw [h1] at h; cases h
  | some r1 =>
    rw [h1] at h
    have h2 : (match dashHM r1 with
        | some r2 =>
          (match wsPlus r2 with | some rest => some rest | none => wsPlus r1)
        | none => wsPlus r1) = some r := h
    have hp1 := parseHM_length h1
    cases hd : dashHM r1 with
    | none =>
      rw [hd] at h2
      have := wsPlus_length h2
      omega
    | some r2 =>
      rw [hd] at h2
      have h3 : (match wsPlus r2 with
          | some rest => some rest | none => wsPlus r1) = some r := h2
      have hp2 := dashHM_length hd
      cases hw : wsPlus r2 with
      | none =>
        rw [hw] at h3
        have := wsPlus_length h3
        omega
      | some r3 =>
        rw [hw] at h3
        cases h3
        have := wsPlus_length hw
        omega

theorem jsTrim_length (s : String) : (jsTrim s).data.length ≤ s.data.length := by
  simp only [jsTrim]
  have h1 := dropWhile_length_le isWS s.data
  have h2 := dropWhile_length_le isWS (s.data.dropWhile isWS).reverse
  simp only [List.length_reverse] at *
  omega

theorem dropWhile_length_eq {p : Char → Bool} : ∀ {l : List Char},
    (l.dropWhile p).length = l.length → l.dropWhile p = l := by
  intro l
  induction l with
  | nil => intro _; rfl
  | cons c cs ih =>
    intro h
    by_cases hp : p c
    · exfalso
      rw [List.dropWhile_cons_of_pos hp] at h
      have := dropWhile_length_le p cs
      simp only [List.length_cons] at h
      omega
    · rw [List.dropWhile_cons_of_neg hp]

theorem jsTrim_eq_self {s : String} (h : (jsTrim s).data.length = s.data.length) :
    jsTrim s = s := by
  apply String.ext
  simp only [jsTrim] at h ⊢
  have h1 := dropWhile_length_le isWS s.data
  have h2 := dropWhile_length_le isWS (s.data.dropWhile isWS).reverse
  simp only [List.length_reverse] at h h2
  have e1 : (s.data.dropWhile isWS).length = s.data.length := by omega
  have e2 : (((s.data.dropWhile isWS).reverse.dropWhile isWS)).length
      = (s.data.dropWhile isWS).reverse.length := by
    simp only [List.length_reverse]
    omega
  rw [dropWhile_length_eq e2, List.reverse_reverse, dropWhile_length_eq e1]

theorem jsTrim_dropWhile {s : String} (h : jsTrim s = s) :
    s.data.dropWhile isWS = s.data := by
  have hd := congrArg (fun t : String => t.data.length) h
  simp only [jsTrim] at hd
  have h1 := dropWhile_length_le isWS s.data
  have h2 := dropWhile_length_le isWS (s.data.dropWhile isWS).reverse
  simp only [List.length_reverse] at hd h2
  apply dropWhile_length_eq
  omega

theorem remAll_length (m : List Char → Option (List Char))
    (hm : ∀ l r, m l = some r → r.length < l.length) :
    ∀ (fuel : Nat) (l : List Char), (remAll m fuel l).length ≤ l.length := by
  intro fuel
  induction fuel with
  | zero => intro l; exact Nat.le_refl _
  | succ fuel ih =>
    intro l
    match l with
    | [] => simp [remAll]
    | c :: cs =>
      simp only [remAll]
      split
      · rename_i rest hrest
        have hlt := hm _ _ hrest
        have := ih rest
        simp only [List.length_cons] at *
        omega
      · have := ih cs
        simp only [List.length_cons]
        omega

theorem remAll_eq_self (m : List Char → Option (List Char))
    (hm : ∀ l r, m l = some r → r.length < l.length) :
    ∀ (fuel : Nat) (l : List Char),
      (remAll m fuel l).length = l.length → remAll m fuel l = l := by
  intro fuel
  induction fuel with
  | zero => intro l _; rfl
  | succ fuel ih =>
    intro l hlen
    match l with
    | [] => simp [remAll]
    | c :: cs =>
      simp only [remAll] at hlen ⊢
      split at hlen
      · rename_i rest hrest
        exfalso
        have hlt := hm _ _ hrest
        have := remAll_length m hm fuel rest
        simp only [List.length_cons] at *
        omega
      · simp only [List.length_cons] at hlen
        have := ih cs (by omega)
        simp [this]

theorem remLeadingTime_length (s : String) :
    (remLeadingTime s).data.length ≤ s.data.length := by
  unfold remLeadingTime
  cases h : matchLeadingTime s.data with
  | none => exact Nat.le_refl _
  | some rest =>
    have := matchLeadingTime_length h
    simpa using Nat.le_of_lt this

theorem remLeadingTime_eq_self {s : String}
    (h : (remLeadingTime s).data.length = s.data.length) : remLeadingTime s = s := by
  unfold remLeadingTime at h ⊢
  cases hm : matchLeadingTime s.data with
  | none => rfl
  | some rest =>
    exfalso
    rw [hm] at h
    have hlt := matchLeadingTime_length hm
    have heq : rest.length = s.data.length := h
    omega

theorem remTimer_length (s : String) : (remTimer s).data.length ≤ s.data.length :=
  remAll_length matchTimer @matchTimer_length s.data.length s.data

theorem remTimer_eq_self {s : String}
    (h : (remTimer s).data.length = s.data.length) : remTimer s = s :=
  String.ext (remAll_eq_self matchTimer @matchTimer_length s.data.length s.data h)

theorem remDateEmoji_length (s : String) :
    (remDateEmoji s).data.length ≤ s.data.length :=
  remAll_length matchDateEmoji @matchDateEmoji_length s.data.length s.data

theorem remDateEmoji_eq_self {s : String}
    (h : (remDateEmoji s).data.length = s.data.length) : remDateEmoji s = s :=
  String.ext (remAll_eq_self matchDateEmoji @matchDateEmoji_length s.data.length
    s.data h)

theorem remRange_length (s : String) : (remRange s).data.length ≤ s.data.length :=
  remAll_length matchRange @matchRange_length s.data.length s.data

theorem remRange_eq_self {s : String}
    (h : (remRange s).data.length = s.data.length) : remRange s = s :=
  String.ext (remAll_eq_self matchRange @matchRange_length s.data.length s.data h)

theorem stripTokens_stages {c : String} (hc : stripTokens c = c) :
    remLeadingTime c = c ∧ jsTrim c = c ∧ remTimer c = c ∧ remDateEmoji c = c
      ∧ remRange c = c := by
  have hlen := congrArg (fun t : String => t.data.length) hc
  simp only [stripTokens] at hlen
  have e1 : remLeadingTime c = c := by
    apply remLeadingTime_eq_self
    have g1 := jsTrim_length (remRange (jsTrim (remDateEmoji (jsTrim (remTimer
      (jsTrim (remLeadingTime c)))))))
    have g2 := remRange_length (jsTrim (remDateEmoji (jsTrim (remTimer
      (jsTrim (remLeadingTime c))))))
    have g3 := jsTrim_length (remDateEmoji (jsTrim (remTimer (jsTrim (remLeadingTime c)))))
    have g4 := remDateEmoji_length (jsTrim (remTimer (jsTrim (remLeadingTime c))))
    have g5 := jsTrim_length (remTimer (jsTrim (remLeadingTime c)))
    have g6 := remTimer_length (jsTrim (remLeadingTime c))
    have g7 := jsTrim_length (remLeadingTime c)
    have g8 := remLeadingTime_length c
    omega
  rw [e1] at hlen
  have e2 : jsTrim c = c := by
    apply jsTrim_eq_self
    have g1 := jsTrim_length (remRange (jsTrim (remDateEmoji (jsTrim (remTimer (jsTrim c))))))
    have g2 := remRange_length (jsTrim (remDateEmoji (jsTrim (remTimer (jsTrim c)))))
    have g3 := jsTrim_length (remDateEmoji (jsTrim (remTimer (jsTrim c))))
    have g4 := remDateEmoji_length (jsTrim (remTimer (jsTrim c)))
    have g5 := jsTrim_length (remTimer (jsTrim c))
    have g6 := remTimer_length (jsTrim c)
    have g7 := jsTrim_length c
    omega
  rw [e2] at hlen
  have e3 : remTimer c = c := by
    apply remTimer_eq_self
    have g1 := jsTrim_length (remRange (jsTrim (remDateEmoji (jsTrim (remTimer c)))))
    have g2 := remRange_length (jsTrim (remDateEmoji (jsTrim (remTimer c))))
    have g3 := jsTrim_length (remDateEmoji (jsTrim (remTimer c)))
    have g4 := remDateEmoji_length (jsTrim (remTimer c))
    have g5 := jsTrim_length (remTimer c)
    have g6 := remTimer_length c
    omega
  rw [e3, e2] at hlen
  have e4 : remDateEmoji c = c := by
    apply remDateEmoji_eq_self
    have g1 := jsTrim_length (remRange (jsTrim (remDateEmoji c)))
    have g2 := remRange_length (jsTrim (remDateEmoji c))
    have g3 := jsTrim_length (remDateEmoji c)
    have g4 := remDateEmoji_length c
    omega
  rw [e4, e2] at hlen
  have e5 : remRange c = c := by
    apply remRange_eq_self
    have g1 := jsTrim_length (remRange c)
    have g2 := remRange_length c
    omega
  exact ⟨e1, e2, e3, e4, e5⟩

theorem stripTokens_range (c : String) (s e : DateTime) (hc : stripTokens c = c) :
    stripTokens (fmtHM s ++ "-" ++ fmtHM e ++ " " ++ c) = c := by
  obtain ⟨e1, e2, e3, e4, e5⟩ := stripTokens_stages hc
  have hbody : (fmtHM s ++ "-" ++ fmtHM e ++ " " ++ c).data
      = Nat.digitChar (s.hour / 10 % 10) :: Nat.digitChar (s.hour % 10) :: ':'
        :: Nat.digitChar (s.minute / 10 % 10) :: Nat.digitChar (s.minute % 10) :: '-'
        :: Nat.digitChar (e.hour / 10 % 10) :: Nat.digitChar (e.hour % 10) :: ':'
        :: Nat.digitChar (e.minute / 10 % 10) :: Nat.digitChar (e.minute % 10) :: ' '
        :: c.data := by
    simp [String.data_append, fmtHM, d2]
  have hmatch : matchLeadingTime ((fmtHM s ++ "-" ++ fmtHM e ++ " " ++ c).data)
      = some c.data := by
    rw [hbody]
    simp only [matchLeadingTime, parseHM, twoDig, dashHM, wsPlus,
      digitChar_mod10_isDig, Bool.and_self, if_true, if_pos rfl]
    rw [jsTrim_dropWhile e2]
    simp [show isWS ' ' = true by decide]
  have hstep1 : remLeadingTime (fmtHM s ++ "-" ++ fmtHM e ++ " " ++ c) = c := by
    unfold remLeadingTime
    rw [hmatch]
  unfold stripTokens
  rw [hstep1, e2, e3, e2, e4, e2, e5, e2]

/-- C5 (counterexample): the claimed idempotence
`format(strip(format(c, s, e, t)), s, e, t) = format(c, s, e, t)` fails even
for the plain content `Lunch`: stripping the full formatted line leaves the
`- ` record head in place, so reformatting prepends a second head. -/
theorem strip_format_not_idempotent :
    formatEventLine
        (stripTokens (formatEventLine "Lunch" ⟨2025, 9, 1, 12, 0, 0⟩
          ⟨2025, 9, 1, 13, 0, 0⟩ "default" none))
        ⟨2025, 9, 1, 12, 0, 0⟩ ⟨2025, 9, 1, 13, 0, 0⟩ "default" none
      ≠ formatEventLine "Lunch" ⟨2025, 9, 1, 12, 0, 0⟩ ⟨2025, 9, 1, 13, 0, 0⟩
          "default" none := by
  decide

/-- C5 (amended): for same-day moments and a content that the strip steps
leave unchanged (no leading time token, timer time, calendar date, bare
range, and already trimmed) with no trailing annotation, the formatted line
is the record head followed by the body `HH:MM-HH:MM <content>`; stripping
that body (rather than the whole line) recovers the content exactly, and
reformatting it reproduces the same line - so the round trip is idempotent
on the line's body, not on the full line. -/
theorem strip_format_idempotent_on_body (c : String) (s e : DateTime) (t : String)
    (hc : stripTokens c = c) (hann : trailingAnnotationSplit c = none)
    (hsd : dtSameDay s e = true) :
    formatEventLine c s e t none
        = markedHead t ++ (fmtHM s ++ "-" ++ fmtHM e ++ " " ++ c)
      ∧ stripTokens (fmtHM s ++ "-" ++ fmtHM e ++ " " ++ c) = c
      ∧ formatEventLine (stripTokens (fmtHM s ++ "-" ++ fmtHM e ++ " " ++ c)) s e t none
          = formatEventLine c s e t none := by
  refine ⟨?_, stripTokens_range c s e hc, ?_⟩
  · rw [formatEventLine_sameDay_eq c s e t hann hsd]
    apply String.ext
    simp [String.data_append, List.append_assoc]
  · rw [stripTokens_range c s e hc]

/-- Witness for C5 (amended) at the claim's own example content. -/
theorem strip_format_idempotent_on_body_witness :
    stripTokens "Lunch" = "Lunch"
      ∧ trailingAnnotationSplit "Lunch" = none
      ∧ dtSameDay ⟨2025, 9, 1, 12, 0, 0⟩ ⟨2025, 9, 1, 13, 0, 0⟩ = true
      ∧ formatEventLine
          (stripTokens (fmtHM ⟨2025, 9, 1, 12, 0, 0⟩ ++ "-"
            ++ fmtHM ⟨2025, 9, 1, 13, 0, 0⟩ ++ " " ++ "Lunch"))
          ⟨2025, 9, 1, 12, 0, 0⟩ ⟨2025, 9, 1, 13, 0, 0⟩ "default" none
        = formatEventLine "Lunch" ⟨2025, 9, 1, 12, 0, 0⟩ ⟨2025, 9, 1, 13, 0, 0⟩
            "default" none := by
  refine ⟨by decide, by decide, by decide, ?_⟩
  exact (strip_format_idempotent_on_body "Lunch" ⟨2025, 9, 1, 12, 0, 0⟩
    ⟨2025, 9, 1, 13, 0, 0⟩ "default" (by decide) (by decide) (by decide)).2.2

/-- Witness for C4 (amended), at the claim's own same-day example. -/
theorem formatEventLine_shapes_witness :
    trailingAnnotationSplit "Lunch" = none
      ∧ dtSameDay ⟨2025, 9, 1, 12, 0, 0⟩ ⟨2025, 9, 1, 13, 0, 0⟩ = true
      ∧ formatEventLine "Lunch" ⟨2025, 9, 1, 12, 0, 0⟩ ⟨2025, 9, 1, 13, 0, 0⟩
          "default" none
        = markedHead "default" ++ fmtHM ⟨2025, 9, 1, 12, 0, 0⟩ ++ "-"
            ++ fmtHM ⟨2025, 9, 1, 13, 0, 0⟩ ++ " " ++ "Lunch" :=
  ⟨by decide, by decide,
   (formatEventLine_shapes "Lunch" ⟨2025, 9, 1, 12, 0, 0⟩ ⟨2025, 9, 1, 13, 0, 0⟩
      "default" (by decide)).1 (by decide)⟩

end BigCal
